import Mathlib

/-!
Verification development for `avt_gameplay_utils.py` (Attack Vector: Tactical
gameplay aids).  The Python module is shallowly embedded below:

* Python arbitrary-precision `int` values are modelled as `Int`/`Nat`.
* Python `decimal.Decimal` values (default context: 28 significant digits,
  ROUND_HALF_EVEN) are modelled by the `Dec` structure: a coefficient times a
  power of ten, with every arithmetic operation computing the exact result and
  then rounding the coefficient to 28 significant digits half-even, as the
  `decimal` module does.  `Decimal.sqrt` and division are modelled as correctly
  rounded to 28 significant digits.  (Exact results are kept with a normalised
  exponent rather than the module's "ideal exponent"; the two agree as values,
  and the only string rendering of a `Dec` used by the claims is robust to the
  difference - see `toStringRounded`.)
* Python strings are `String`/`List Char`; parsing helpers (`str.split`,
  `int(...)`) are modelled directly (ASCII digits; `int` accepts an optional
  sign and single underscores between digits, as in CPython).
* The module `movement_grid_remainders` is an external data dependency (not
  part of the analysed sources); it is passed around as an explicit `Rem`
  parameter, and every theorem that touches it is universally quantified over
  it.
-/

set_option maxRecDepth 100000
set_option maxHeartbeats 3200000

namespace AVT

/-! ## Model of `decimal.Decimal` (context: precision 28, ROUND_HALF_EVEN) -/

/-- Number of decimal digits of a natural number (at least 1, also for 0).
Fueled structural recursion so that the kernel can evaluate it; the fuel of
400 is far beyond any coefficient size reachable in this development. -/
def numDigitsAux : Nat → Nat → Nat
  | 0, _ => 0
  | fuel + 1, n => if n < 10 then 1 else numDigitsAux fuel (n / 10) + 1

/-- Number of decimal digits of a natural number. -/
def numDigits (n : Nat) : Nat := numDigitsAux 400 n

/-- Round `n / 10 ^ d` to the nearest integer, ties to even
(the ROUND_HALF_EVEN rule of the default decimal context). -/
def rndHalfEven (n : Nat) (d : Nat) : Nat :=
  let p := 10 ^ d
  let q := n / p
  let r := n % p
  if 2 * r < p then q
  else if p < 2 * r then q + 1
  else if q % 2 = 0 then q else q + 1

/-- A decimal number: value `m * 10 ^ e`.  Models `decimal.Decimal`. -/
structure Dec where
  m : Int
  e : Int
deriving DecidableEq, Repr

/-- Context precision of the default decimal context. -/
def PREC : Nat := 28

/-- Round a `Dec` to 28 significant digits, half-even on the magnitude
(as the decimal context does after every exact operation).  Values whose
coefficient already fits in 28 digits are unchanged. -/
def Dec.roundPrec (x : Dec) : Dec :=
  let n := x.m.natAbs
  let dg := numDigits n
  if dg ≤ PREC then x
  else
    let d := dg - PREC
    let q := rndHalfEven n d
    let q2 : Nat := if numDigits q > PREC then q / 10 else q
    let e2 : Int := if numDigits q > PREC then x.e + d + 1 else x.e + d
    ⟨if x.m < 0 then -(q2 : Int) else (q2 : Int), e2⟩

/-- Embed an integer (Python `int` promoted to `Decimal`, exact). -/
def Dec.ofInt (n : Int) : Dec := ⟨n, 0⟩

/-- Exact aligned coefficients of two decimals over a common exponent. -/
def Dec.alignKey (x y : Dec) : Int × Int :=
  let e := min x.e y.e
  (x.m * ((10 : Int) ^ (x.e - e).toNat), y.m * ((10 : Int) ^ (y.e - e).toNat))

/-- Decimal addition: exact sum, then context rounding. -/
def Dec.add (x y : Dec) : Dec :=
  let k := Dec.alignKey x y
  Dec.roundPrec ⟨k.1 + k.2, min x.e y.e⟩

/-- Decimal negation (exact: the coefficients in play always fit the
context precision, so the context round involved in Python's unary minus
is the identity). -/
def Dec.neg (x : Dec) : Dec := ⟨-x.m, x.e⟩

/-- Decimal subtraction: addition of the negation. -/
def Dec.sub (x y : Dec) : Dec := Dec.add x (Dec.neg y)

/-- Decimal multiplication: exact product, then context rounding. -/
def Dec.mul (x y : Dec) : Dec :=
  Dec.roundPrec ⟨x.m * y.m, x.e + y.e⟩

/-- Decimal squaring, modelling Python's `x ** 2` (an exact square rounded
once to context precision, exactly like `x * x`). -/
def Dec.sq (x : Dec) : Dec := Dec.mul x x

/-- Value comparison `x < y` (Python `<` on `Decimal` compares exact values). -/
def Dec.blt (x y : Dec) : Bool := (Dec.alignKey x y).1 < (Dec.alignKey x y).2

/-- Value comparison `x <= y`. -/
def Dec.ble (x y : Dec) : Bool := (Dec.alignKey x y).1 ≤ (Dec.alignKey x y).2

/-- Exact absolute value of a coefficient-exponent pair. -/
def Dec.abs (x : Dec) : Dec := ⟨Int.natAbs x.m, x.e⟩

/-- Python `abs` on a `Decimal`: `Decimal.__abs__` rounds its result to the
context precision (it goes through the context plus or minus), so a more
than 28-digit operand is rounded, unlike the exact `Dec.abs`. -/
def Dec.absR (x : Dec) : Dec := Dec.roundPrec (Dec.abs x)

/-- Mathematical floor of a decimal (Python `math.floor` on a `Decimal`). -/
def Dec.floor (x : Dec) : Int :=
  if 0 ≤ x.e then x.m * ((10 : Int) ^ x.e.toNat)
  else Int.fdiv x.m ((10 : Int) ^ (-x.e).toNat)

/-- Newton iteration for the integer square root, with fuel (structural so
that the kernel can evaluate it; fuel 400 covers all coefficients reachable
here, the iteration count being logarithmic in the argument). -/
def isqrtAux (n : Nat) : Nat → Nat → Nat
  | 0, x => x
  | fuel + 1, x =>
    let y := (x + n / x) / 2
    if x ≤ y then x else isqrtAux n fuel y

/-- Integer square root (floor of the real square root). -/
def isqrt (n : Nat) : Nat :=
  if n ≤ 1 then n else isqrtAux n 400 n

/-- Decimal square root, correctly rounded to 28 significant digits half-even
(the specification of `Decimal.sqrt`).  The result coefficient is always
normalised to 28 digits; Python prints exact roots with fewer digits, which
is a value-equal representation.  Non-positive inputs (never produced by the
embedded code, whose radicands are sums of squares) yield zero. -/
def Dec.sqrt (x : Dec) : Dec :=
  if x.m ≤ 0 then ⟨0, 0⟩
  else
    let n : Nat := if x.e % 2 = 0 then x.m.natAbs else x.m.natAbs * 10
    let e : Int := if x.e % 2 = 0 then x.e else x.e - 1
    let g : Int := e / 2
    let p : Nat := 30
    let a := isqrt (n * 10 ^ (2 * p))
    let d := numDigits a - PREC
    let P := 10 ^ d
    let q := a / P
    let T := q * P + P / 2
    let n2 := n * 10 ^ (2 * p)
    let q1 := if T * T < n2 then q + 1 else if n2 < T * T then q else
      if q % 2 = 0 then q else q + 1
    let q2 : Nat := if numDigits q1 > PREC then q1 / 10 else q1
    let d2 : Nat := if numDigits q1 > PREC then d + 1 else d
    ⟨(q2 : Int), g - (p : Int) + (d2 : Int)⟩

/-- Decimal division, correctly rounded to 28 significant digits half-even
(the specification of `Decimal.__truediv__`).  The result coefficient is
normalised to 28 digits (value-equal to Python's ideal-exponent form for
exact quotients).  Division by zero (never exercised by the claims) yields
zero. -/
def Dec.div (x y : Dec) : Dec :=
  if y.m = 0 then ⟨0, 0⟩
  else if x.m = 0 then ⟨0, 0⟩
  else
    let A := x.m.natAbs
    let B := y.m.natAbs
    let neg : Bool := (x.m < 0) ≠ (y.m < 0)
    let t : Nat := 29 + numDigits B
    let n0 := A * 10 ^ t / B
    let d := numDigits n0 - PREC
    let P := 10 ^ d
    let q := n0 / P
    let lhs := A * 10 ^ t
    let rhs := B * (q * P + P / 2)
    let q1 := if rhs < lhs then q + 1 else if lhs < rhs then q else
      if q % 2 = 0 then q else q + 1
    let q2 : Nat := if numDigits q1 > PREC then q1 / 10 else q1
    let d2 : Nat := if numDigits q1 > PREC then d + 1 else d
    ⟨if neg then -(q2 : Int) else (q2 : Int), x.e - y.e - (t : Int) + (d2 : Int)⟩

/-- The constant `_HALF_DECIMAL = Decimal('0.5')`. -/
def HALF : Dec := ⟨5, -1⟩

/-- The constant `_SIN60 = Decimal(sin(pi/3))`: the exact decimal expansion of
the IEEE-754 double nearest to sin(60 degrees),
3900231685776981 / 2^52. -/
def SIN60 : Dec := ⟨8660254037844385965883020617184229195117950439453125, -52⟩

/-! ## String helpers: Python `str.split`, `int(...)`, `str(int)`, `str(Decimal)` -/

/-- Decimal digit character of `n % 10`. -/
def digitChar (n : Nat) : Char := Char.ofNat (48 + n % 10)

/-- Decimal digit characters of a natural number, most significant first
(the rendering of a non-negative Python `int`).  Fueled structural
recursion, kernel-evaluable. -/
def natReprAux : Nat → Nat → List Char
  | 0, _ => []
  | fuel + 1, n => if n < 10 then [digitChar n] else natReprAux fuel (n / 10) ++ [digitChar (n % 10)]

/-- Decimal digit characters of a natural number. -/
def natRepr (n : Nat) : List Char := natReprAux 400 n

/-- Python `str` of an `int` (or of an integer-valued `Decimal` with
exponent 0, which prints identically). -/
def intChars (n : Int) : List Char :=
  if n < 0 then '-' :: natRepr n.natAbs else natRepr n.natAbs

/-- Numeric value of a list of decimal digit characters. -/
def digitsVal (l : List Char) : Nat :=
  l.foldl (fun a c => a * 10 + (c.toNat - 48)) 0

/-- Python whitespace characters recognised by `str.split()`. -/
def isPyWs (c : Char) : Bool :=
  c = ' ' ∨ c = '\t' ∨ c = '\n' ∨ c = '\r' ∨ c = '\x0b' ∨ c = '\x0c'

/-- Worker for `pySplit`: `acc` holds the current token reversed. -/
def pySplitAux : List Char → List Char → List (List Char)
  | [], acc => if acc = [] then [] else [acc.reverse]
  | c :: rest, acc =>
    if isPyWs c then
      if acc = [] then pySplitAux rest [] else acc.reverse :: pySplitAux rest []
    else pySplitAux rest (c :: acc)

/-- Python `str.split()` with no separator: split on whitespace runs,
discarding empty tokens.  (`.strip().split()` in the source equals
`.split()`, since `split()` already ignores leading and trailing
whitespace.) -/
def pySplit (l : List Char) : List (List Char) := pySplitAux l []

/-- Python `str.split(sep)` for a one-character separator: keeps empty
pieces, `"".split(sep) == [""]`. -/
def splitOnCharAux (sep : Char) : List Char → List Char → List (List Char)
  | [], acc => [acc.reverse]
  | c :: rest, acc =>
    if c = sep then acc.reverse :: splitOnCharAux sep rest []
    else splitOnCharAux sep rest (c :: acc)

/-- Python `str.split(sep)` for a one-character separator. -/
def splitOnChar (sep : Char) (l : List Char) : List (List Char) :=
  splitOnCharAux sep l []

/-- Python `sep.join(pieces)` on character lists. -/
def joinSep (sep : List Char) : List (List Char) → List Char
  | [] => []
  | [t] => t
  | t :: t2 :: rest => t ++ sep ++ joinSep sep (t2 :: rest)

/-- Value of an ASCII digit character, if it is one. -/
def digitVal (c : Char) : Option Nat :=
  if '0' ≤ c ∧ c ≤ '9' then some (c.toNat - 48) else none

/-- Digit-run scanner for `int(...)`: ASCII digits with single underscores
allowed between digits, as in CPython's integer literal grammar.
State: accumulated value and whether the previous character was a digit. -/
def pyIntDigitsAux : List Char → Nat → Bool → Option Nat
  | [], acc, lastDigit => if lastDigit then some acc else none
  | c :: rest, acc, lastDigit =>
    match digitVal c with
    | some v => pyIntDigitsAux rest (acc * 10 + v) true
    | none => if c = '_' ∧ lastDigit then pyIntDigitsAux rest acc false else none

/-- Python `int(s)` on a whitespace-free string (the tokens fed to it in the
source come from `str.split()` and contain no whitespace): an optional sign
followed by a non-empty digit run; `none` models the `ValueError`.
Only ASCII digits are modelled. -/
def pyInt (l : List Char) : Option Int :=
  match l with
  | '-' :: rest => (pyIntDigitsAux rest 0 false).map (fun n => -(n : Int))
  | '+' :: rest => (pyIntDigitsAux rest 0 false).map (fun n => (n : Int))
  | _ => (pyIntDigitsAux l 0 false).map (fun n => (n : Int))

/-- ASCII uppercase of a character (Python `str.upper()` restricted to the
ASCII range; no non-ASCII character uppercases into the A-F, plus, minus
alphabet). -/
def upperChar (c : Char) : Char :=
  if 'a' ≤ c ∧ c ≤ 'z' then Char.ofNat (c.toNat - 32) else c

/-- A run of `k` zero characters. -/
def zeroChars (k : Nat) : List Char := List.replicate k '0'

/-- Python `str` of a `Decimal` (finite values): positional notation when the
exponent is non-positive and the adjusted exponent is at least -6, otherwise
scientific notation, exactly as specified for `Decimal.__str__`. -/
def Dec.strChars (x : Dec) : List Char :=
  let sign : List Char := if x.m < 0 then ['-'] else []
  let ds := natRepr x.m.natAbs
  let adj : Int := x.e + ds.length - 1
  if x.e ≤ 0 ∧ -6 ≤ adj then
    if x.e = 0 then sign ++ ds
    else if 0 ≤ adj then
      sign ++ ds.take (ds.length - (-x.e).toNat) ++ '.' :: ds.drop (ds.length - (-x.e).toNat)
    else sign ++ '0' :: '.' :: zeroChars (-(adj + 1)).toNat ++ ds
  else
    let tail := ds.drop 1
    sign ++ ds.take 1 ++ (if tail = [] then [] else '.' :: tail)
      ++ 'E' :: (if 0 ≤ adj then '+' :: intChars adj else intChars adj)

/-- Model of `to_string_rounded`: render a `Decimal` as a whole number `N` or
half-integer `N.5`, by splitting the decimal string on the point and
comparing the fraction digits against 0.25 and 0.75 (fraction at most 0.25
truncates, at most 0.75 becomes `.5`, otherwise rounds up). -/
def toStringRounded (num : Dec) : List Char :=
  let strnum := Dec.strChars num
  if strnum.contains '.' then
    let intPart := strnum.takeWhile (fun c => c ≠ '.')
    let frac := (strnum.dropWhile (fun c => c ≠ '.')).drop 1
    let fracDeci : Dec := ⟨(digitsVal frac : Int), -(frac.length : Int)⟩
    if Dec.ble fracDeci ⟨25, -2⟩ then intPart
    else if Dec.ble fracDeci ⟨75, -2⟩ then intPart ++ ['.', '5']
    else
      let v : Int := if intPart.headD ' ' = '-' then -(digitsVal (intPart.drop 1) : Int)
        else (digitsVal intPart : Int)
      Dec.strChars (Dec.add ⟨v, 0⟩ ⟨1, 0⟩)
  else strnum

/-! ## The `Vector` class: hexagonal vectors

A `Vector` stores the canonical triple `_uvp_vectors` (keys `'U'`, `'V'`,
`'+'`).  All values reachable from token-string construction and vector
arithmetic are integer-valued, so the triple is modelled as `Int × Int × Int`
(first `U`, then `V`, then the vertical component).  Integer-valued `Decimal`
entries of the per-direction dictionaries are likewise modelled as `Int`;
this is exact for magnitudes below the 28-digit context precision. -/

/-- The canonical `(U, V, +)` triple of a `Vector`. -/
abbrev Uvp := Int × Int × Int

/-- `_CARDINAL_H`. -/
def CARDINAL_H : List Char := ['A', 'B', 'C', 'D', 'E', 'F']

/-- `_CARDINAL_V`. -/
def CARDINAL_V : List Char := ['+', '-']

/-- `_CARDINALS`. -/
def CARDINALS : List Char := CARDINAL_H ++ CARDINAL_V

/-- A per-direction magnitude dictionary (the `vectors` dicts of the source,
string-keyed by the cardinal characters). -/
abbrev VDict := Char → Int

/-- The all-zero dictionary `dict(zip(_CARDINALS, (Decimal(0) ...)))`. -/
def vzero : VDict := fun _ => 0

/-- Dictionary update `d[c] = x`. -/
def vset (d : VDict) (c : Char) (x : Int) : VDict :=
  fun c2 => if c2 = c then x else d c2

/-- `_uvp_from_vectors`: convert a direction dictionary to the `(U, V, +)`
triple. -/
def uvpFromVectors (d : VDict) : Uvp :=
  let p0 : Int × Int := (0, 0)
  let p1 := if d 'B' ≠ 0 then (p0.1 + d 'B', p0.2 - d 'B') else p0
  let p2 := if d 'E' ≠ 0 then (p1.1 - d 'E', p1.2 + d 'E') else p1
  let v3 := p2.2 + d 'D'
  let v4 := v3 - d 'A'
  let u3 := p2.1 + d 'C'
  let u4 := u3 - d 'F'
  (u4, v4, d '+' - d '-')

/-- `__place_in_vector`: place an integer magnitude in the dictionary by
direction (positive into `pos`, negative into `neg`, zero nowhere). -/
def placeInVector (d : VDict) (mag : Int) (pos neg : Char) : VDict :=
  if 0 < mag then vset d pos mag
  else if mag < 0 then vset d neg (-mag)
  else d

/-- `__consolidate_120`: if the clockwise and counterclockwise neighbours of
`dir` are both nonzero, move the smaller onto `dir` and subtract it from the
larger (ties take the first branch, crediting the counterclockwise side as
the greater). -/
def consolidate120 (d : VDict) (dccw dir dcw : Char) : VDict :=
  let vcw := d dcw
  let vccw := d dccw
  if 0 < vcw ∧ vcw ≤ vccw then
    vset (vset (vset d dir vcw) dcw 0) dccw (vccw - vcw)
  else if 0 < vccw ∧ vccw ≤ vcw then
    vset (vset (vset d dir vccw) dccw 0) dcw (vcw - vccw)
  else d

/-- `_vectors_from_uvp`: convert the `(U, V, +)` triple to a direction
dictionary and consolidate the two 120-degree pairs. -/
def vectorsFromUvp (u : Uvp) : VDict :=
  let d1 := placeInVector vzero u.2.2 '+' '-'
  let d2 := placeInVector d1 u.1 'C' 'F'
  let d3 := placeInVector d2 u.2.1 'D' 'A'
  consolidate120 (consolidate120 d3 'A' 'B' 'C') 'D' 'E' 'F'

/-- The dictionary of `_vectors_from_uvp` before the two consolidations:
the vertical, U and V magnitudes placed by sign (a proof-side abbreviation
for the first three statements of the source function). -/
def place3 (u v z : Int) : VDict :=
  placeInVector (placeInVector (placeInVector vzero z '+' '-') u 'C' 'F') v 'D' 'A'

/-- Adjacency of two horizontal cardinal directions: 60 degrees apart on
the hex compass (cyclically consecutive in `_CARDINAL_H`). -/
def adjacentH (x y : Char) : Bool :=
  let i := CARDINAL_H.indexOf x
  let j := CARDINAL_H.indexOf y
  (i + 1) % 6 = j ∨ (j + 1) % 6 = i

/-- One step of the major/minor scan of `_major_minor_vertical`. -/
def mmStep (d : VDict) (mm : (Int × Char) × (Int × Char)) (dir : Char) :
    (Int × Char) × (Int × Char) :=
  let mag := d dir
  if mm.1.1 < mag then
    if mm.2.1 < mm.1.1 then ((mag, dir), mm.1) else ((mag, dir), mm.2)
  else if mm.2.1 < mag then (mm.1, (mag, dir))
  else mm

/-- `_major_minor_vertical` on a direction dictionary: scan `A..F` for the
largest and second-largest magnitudes, then `['-', '+']` for the vertical. -/
def mmvDict (d : VDict) : (Int × Char) × (Int × Char) × (Int × Char) :=
  let mm := CARDINAL_H.foldl (mmStep d) ((0, 'A'), (0, 'A'))
  let vert := (['-', '+'] : List Char).foldl
    (fun v dir => if v.1 < d dir then (d dir, dir) else v) (0, '+')
  (mm.1, mm.2, vert)

/-- `Vector._major_minor_vertical`. -/
def mmv (u : Uvp) : (Int × Char) × (Int × Char) × (Int × Char) :=
  mmvDict (vectorsFromUvp u)

/-- `Vector.__str__`: the formatted vector string. -/
def formatVec (u : Uvp) : String :=
  let t := mmv u
  let major := t.1
  let minor := t.2.1
  let vertical := t.2.2
  if major.1 = 0 then
    if vertical.1 = 0 then "STILL"
    else ⟨intChars vertical.1 ++ [vertical.2]⟩
  else
    let arr1 : List (List Char) := [intChars major.1 ++ [major.2]]
    let arr2 := if 0 < minor.1 then arr1 ++ [intChars minor.1 ++ [minor.2]] else arr1
    let arr3 := if 0 < vertical.1 then arr2 ++ [intChars vertical.1 ++ [vertical.2]] else arr2
    ⟨joinSep [' '] arr3⟩

/-- The parse errors of `Vector.__init__` (all `ValueError` in Python, except
`notString`, the `AttributeError` from calling `.strip()` on a non-string). -/
inductive VecErr
  | negative
  | duplicate
  | invalidDir
  | intError
  | notString
deriving DecidableEq, Repr

/-- The token loop of `Vector.__init__`: for each token, parse the magnitude
`int(elem[:-1])`, reject negatives, uppercase the final character, reject
duplicate and unknown directions, and store the magnitude. -/
def parseTokens : List (List Char) → VDict → List Char → Except VecErr VDict
  | [], d, _ => .ok d
  | elem :: rest, d, seen =>
    match pyInt elem.dropLast with
    | none => .error .intError
    | some num =>
      if num < 0 then .error .negative
      else
        let dir := upperChar (elem.getLastD ' ')
        if dir ∈ seen then .error .duplicate
        else if dir ∉ CARDINALS then .error .invalidDir
        else parseTokens rest (vset d dir num) (seen ++ [dir])

/-- `Vector.__init__` on a string: split the vector string into tokens,
run the token loop, and convert the resulting dictionary to `(U, V, +)`. -/
def parseVec (s : String) : Except VecErr Uvp :=
  (parseTokens (pySplit s.data) vzero []).map uvpFromVectors

/-- `Vector.__init__` on an arbitrary Python value: a non-string argument
(`none`) fails when `.strip()` is looked up on it. -/
def parseVecInput : Option String → Except VecErr Uvp
  | none => .error .notString
  | some s => parseVec s

/-- `Vector.__add__` (componentwise on the canonical triple). -/
def addUvp (a b : Uvp) : Uvp := (a.1 + b.1, a.2.1 + b.2.1, a.2.2 + b.2.2)

/-- `Vector.__sub__` (componentwise on the canonical triple). -/
def subUvp (a b : Uvp) : Uvp := (a.1 - b.1, a.2.1 - b.2.1, a.2.2 - b.2.2)

/-- `Vector._cartesian_magnitude`: Euclidean length from the major/minor/
vertical decomposition, in `Decimal` arithmetic. -/
def cartMag (u : Uvp) : Dec :=
  let t := mmv u
  let major := t.1.1
  let minor := t.2.1.1
  let vertical := t.2.2.1
  let base := Dec.add (Dec.ofInt major) (Dec.mul (Dec.ofInt minor) HALF)
  let h1 := Dec.sq base
  let h2 := Dec.add h1 (Dec.sq (Dec.mul (Dec.ofInt minor) SIN60))
  Dec.sqrt (Dec.add h2 (Dec.sq (Dec.ofInt vertical)))

/-- `Vector.cartesian`: the exact `(x, y, z)` projection
`x = U*sin60`, `y = -(V + U*0.5)`, `z = Z`. -/
def cartesianOf (u : Uvp) : Dec × Dec × Dec :=
  (Dec.mul (Dec.ofInt u.1) SIN60,
   Dec.neg (Dec.add (Dec.ofInt u.2.1) (Dec.mul (Dec.ofInt u.1) HALF)),
   Dec.ofInt u.2.2)

/-! ## `Vector.bearing` -/

/-- The horizontal distance of `bearing`: the raw component sum when `count`
is set, else the law-of-cosines distance in `Decimal` arithmetic. -/
def bearingHDist (count : Bool) (major minor : Int) : Dec :=
  if count then Dec.add (Dec.ofInt major) (Dec.ofInt minor)
  else
    let h1 := Dec.sq (Dec.add (Dec.ofInt major) (Dec.mul (Dec.ofInt minor) HALF))
    let h2 := Dec.add h1 (Dec.sq (Dec.mul (Dec.ofInt minor) SIN60))
    Dec.sqrt h2

/-- The height-deviation tier of `bearing`: one point for each of
`abs(4*v_dist) > abs(h_dist)`, `abs(v_dist) > abs(h_dist)`,
`abs(v_dist) >= abs(4*h_dist)`.  The products `4*v_dist` and `4*h_dist` are
`Decimal` multiplications and every `abs` is `Decimal.__abs__`, so each of
them rounds its result to the 28-digit context precision. -/
def bearingHeight (hDist : Dec) (v : Int) : Nat :=
  (if Dec.blt (Dec.absR hDist) (Dec.absR (Dec.mul (Dec.ofInt 4) (Dec.ofInt v))) then 1 else 0)
  + (if Dec.blt (Dec.absR hDist) (Dec.absR (Dec.ofInt v)) then 1 else 0)
  + (if Dec.ble (Dec.absR (Dec.mul (Dec.ofInt 4) hDist)) (Dec.absR (Dec.ofInt v)) then 1 else 0)

/-- The direction label of `bearing` before the height-tier override: an edge
pair in character order when `minor * 3 >= major`, else the major's letter. -/
def bearingDir (major minor : Int × Char) : List Char :=
  if major.1 ≤ minor.1 * 3 then
    if minor.2 < major.2 then [minor.2, '/', major.2] else [major.2, '/', minor.2]
  else [major.2]

/-- `Vector.bearing`: distance and AVID window relative to the zero vector. -/
def bearing (u : Uvp) (count : Bool) : String :=
  let t := mmv u
  let major := t.1
  let minor := t.2.1
  let vertical := t.2.2
  let hDist := bearingHDist count major.1 minor.1
  if major.1 = 0 then
    if vertical.1 = 0 then "NONE"
    else ⟨intChars vertical.1 ++ ' ' ::
      (if vertical.2 = '+' then ['+', '+', '+'] else ['-', '-', '-'])⟩
  else
    let dir := bearingDir major minor
    let height := bearingHeight hDist vertical.1
    let dir2 := if height = 3 then [] else dir
    let distPow := Dec.add (Dec.sq hDist) (Dec.sq (Dec.ofInt vertical.1))
    let dist := Dec.floor (Dec.add (Dec.sqrt distPow) HALF)
    ⟨intChars dist ++ ' ' :: dir2 ++ List.replicate height vertical.2⟩

/-- The canonical-form invariant of a vector's derived direction dictionary
(the decomposition source): every magnitude is non-negative, any two nonzero
horizontal directions are equal or adjacent (60 degrees, never 120), no
three distinct horizontal directions are simultaneously nonzero, and the
derived major/minor/vertical magnitudes are non-negative. -/
def canonInv (uvp : Uvp) : Prop :=
  (∀ c ∈ CARDINALS, 0 ≤ vectorsFromUvp uvp c) ∧
  (∀ x ∈ CARDINAL_H, ∀ y ∈ CARDINAL_H,
    vectorsFromUvp uvp x ≠ 0 → vectorsFromUvp uvp y ≠ 0 →
    x = y ∨ adjacentH x y = true) ∧
  (∀ x ∈ CARDINAL_H, ∀ y ∈ CARDINAL_H, ∀ w ∈ CARDINAL_H,
    x ≠ y → x ≠ w → y ≠ w →
    ¬(vectorsFromUvp uvp x ≠ 0 ∧ vectorsFromUvp uvp y ≠ 0 ∧ vectorsFromUvp uvp w ≠ 0)) ∧
  0 ≤ (mmv uvp).1.1 ∧ 0 ≤ (mmv uvp).2.1.1 ∧ 0 ≤ (mmv uvp).2.2.1

/-! ## The `AVID` class: windows on the AVID sphere -/

/-- `AVID._WINDOWS_H`: the twelve horizontal window labels, clockwise. -/
def WINDOWS_H : List String :=
  ["A", "A/B", "B", "B/C", "C", "C/D", "D", "D/E", "E", "E/F", "F", "F/A"]

/-- Ring 0 (amber) offset table. -/
def OFF0 : List (List (Int × Int)) :=
  [ [(0, 0)],
    [(0, 1), (-1, 1), (-1, 0), (-1, -1), (0, -1), (1, -1), (1, 0), (1, 1)],
    [(0, 2), (-1, 2), (-2, 2), (-2, 1), (-2, 0), (-2, -1), (-2, -2), (-1, -2),
     (0, -2), (1, -2), (2, -2), (2, -1), (2, 0), (2, 1), (2, 2), (1, 2)],
    [(0, 3), (-3, 2), (-3, 1), (-3, 0), (-3, -1), (-3, -2), (0, -3), (3, -2),
     (3, -1), (3, 0), (3, 1), (3, 2)] ]

/-- Ring +1 (blue) offset table. -/
def OFF1 : List (List (Int × Int)) :=
  [ [(0, 0)],
    [(0, 1), (-1, 1), (-1, 0), (-1, -1), (0, -1), (1, -1), (1, 0), (1, 1)],
    [(0, 2), (-2, 1), (-2, 0), (-2, -1), (-2, -2), (-1, -2), (0, -2), (1, -2),
     (2, -2), (2, -1), (2, 0), (2, 1)],
    [(6, 1), (-5, 1), (-4, 1), (-3, 1), (-3, 0), (-3, -1), (-3, -2), (-3, -3),
     (-2, -3), (-1, -3), (0, -3), (1, -3), (2, -3), (3, -3), (3, -2), (3, -1),
     (3, 0), (3, 1), (4, 0), (5, 0)] ]

/-- Ring -1 (blue) offset table. -/
def OFFm1 : List (List (Int × Int)) :=
  [ [(0, 0)],
    [(0, 1), (-1, 1), (-1, 0), (-1, -1), (0, -1), (1, -1), (1, 0), (1, 1)],
    [(0, 2), (-1, 2), (-2, 2), (-2, 1), (-2, 0), (-2, -1), (0, -2), (2, -1),
     (2, 0), (2, 1), (2, 2), (1, 2)] ]

/-- Ring +2 (green) offset table. -/
def OFF2 : List (List (Int × Int)) :=
  [ [(0, 0)],
    [(0, 1), (-1, 0), (-2, 0), (-1, -1), (0, -1), (1, -1), (2, 0), (1, 0)],
    [(6, 0), (-5, 0), (-4, 0), (-3, 0), (-2, -1), (-2, -2), (-1, -2), (0, -2),
     (1, -2), (2, -2), (2, -1), (3, 0), (4, 0), (5, 0)],
    [(6, -1), (-5, -1), (-4, -1), (-3, -1), (-3, -2), (-3, -3), (-2, -3),
     (-1, -3), (0, -3), (1, -3), (2, -3), (3, -3), (3, -2), (3, -1), (4, -1),
     (5, -1)] ]

/-- Ring -2 (green) offset table. -/
def OFFm2 : List (List (Int × Int)) :=
  [ [(0, 0)],
    [(0, 1), (-1, 1), (-2, 0), (-1, 0), (0, -1), (1, 0), (2, 0), (1, 1)],
    [(0, 2), (-1, 2), (-2, 2), (-2, 1), (-3, 0), (-4, 0), (-5, 0), (6, 0),
     (5, 0), (4, 0), (3, 0), (2, 1), (2, 2), (1, 2)] ]

/-- Ring 3 (fuchsia) offset table (absolute window tuples). -/
def OFF3 : List (List (Int × Int)) :=
  [ [(0, 3)],
    [(0, 2), (1, 2), (2, 2), (3, 2), (4, 2), (5, 2), (6, 2), (7, 2), (8, 2),
     (9, 2), (10, 2), (11, 2)],
    [(0, 1), (1, 1), (2, 1), (3, 1), (4, 1), (5, 1), (6, 1), (7, 1), (8, 1),
     (9, 1), (10, 1), (11, 1)],
    [(0, 0), (1, 0), (2, 0), (3, 0), (4, 0), (5, 0), (6, 0), (7, 0), (8, 0),
     (9, 0), (10, 0), (11, 0)] ]

/-- `AVID._OFFSETS`: dictionary from ring to offset table; `none` models a
`KeyError` (there is no entry for ring -3). -/
def OFFSETS (r : Int) : Option (List (List (Int × Int))) :=
  if r = 0 then some OFF0
  else if r = 1 then some OFF1
  else if r = -1 then some OFFm1
  else if r = 2 then some OFF2
  else if r = -2 then some OFFm2
  else if r = 3 then some OFF3
  else none

/-- Python list indexing `l[i]` with negative-index wraparound;
`none` models an `IndexError`. -/
def pyIdx {α : Type} (l : List α) (i : Int) : Option α :=
  if 0 ≤ i then l.get? i.toNat
  else if 0 ≤ i + l.length then l.get? (i + (l.length : Int)).toNat
  else none

/-- `AVID._dir_vert_to_label`: label of a (direction, vertical) pair; the
poles collapse to `+++` and `---`, other rings append the vertical suffix to
the direction label. -/
def dirVertToLabel (direction vertical : Int) : String :=
  if vertical = 3 then "+++"
  else if vertical = -3 then "---"
  else (WINDOWS_H.getD direction.toNat "")
    ++ ⟨List.replicate vertical.natAbs (if vertical < 0 then '-' else '+')⟩

/-- Errors raised by the `AVID` operations: `badDirection` is the
`ValueError` of `__init__`, `notYetImplemented` the explicit `ValueError` of
`offset_ring`, and `keyError` / `indexError` the dictionary and list lookup
failures that Python would raise as such. -/
inductive AvidErr
  | badDirection
  | notYetImplemented
  | keyError
  | indexError
deriving DecidableEq, Repr

/-- An `AVID` instance: window direction (0..11) and vertical ring (-3..3). -/
structure Avid where
  direction : Int
  vertical : Int
  label : String
deriving DecidableEq, Repr

/-- Build the `AVID` fields from a resolved direction label and ring. -/
def avidOfDir (l : String) (vert : Int) : Avid :=
  let dir : Int := ((WINDOWS_H.indexOf l : Nat) : Int) % 12
  ⟨dir, vert, dirVertToLabel dir vert⟩

/-- Python `str.endswith` on character lists. -/
def endsWithCh (l suf : List Char) : Bool :=
  decide (suf.length ≤ l.length) && decide (l.drop (l.length - suf.length) = suf)

/-- `AVID.__init__`: parse a window name.  The poles are handled first;
otherwise a trailing run of one or two plus or minus signs fixes the ring
(`str.endswith` checked in the source order `++`, `+`, `--`, `-`, and the
suffix stripped with `label[:-2]` or `label[:-1]`), the remainder is
uppercased and resolved against the label table, trying the reversed string
for edge labels given in the wrong order. -/
def avidParse (label : String) : Except AvidErr Avid :=
  if label = "+++" then .ok ⟨0, 3, label⟩
  else if label = "---" then .ok ⟨0, -3, label⟩
  else
    let lc := label.data
    let vert : Int :=
      if endsWithCh lc ['+', '+'] then 2
      else if endsWithCh lc ['+'] then 1
      else if endsWithCh lc ['-', '-'] then -2
      else if endsWithCh lc ['-'] then -1
      else 0
    let l1 : List Char :=
      if endsWithCh lc ['+', '+'] then lc.take (lc.length - 2)
      else if endsWithCh lc ['+'] then lc.take (lc.length - 1)
      else if endsWithCh lc ['-', '-'] then lc.take (lc.length - 2)
      else if endsWithCh lc ['-'] then lc.take (lc.length - 1)
      else lc
    let l2 : String := ⟨l1.map upperChar⟩
    if l2 ∈ WINDOWS_H then .ok (avidOfDir l2 vert)
    else if l2.data.contains '/' then
      let l3 : String := ⟨l2.data.reverse⟩
      if l3 ∈ WINDOWS_H then .ok (avidOfDir l3 vert)
      else .error .badDirection
    else .error .badDirection

/-- `AVID.offset_ring`: the ring of windows at the given offset distance.
The pole test in the source is `origin_v in [3 or -3]`, and `3 or -3`
evaluates to `3` in Python, so only ring +3 takes the explicit
`ValueError("not yet implemented")` branch.  Distances above 3 flip to the
opposite side (negated ring, direction rotated by 6, distance `6 - dist`). -/
def offsetRing (w : Avid) (dist : Int) : Except AvidErr (List String) :=
  let originD := w.direction
  let originV := w.vertical
  if originV = 3 then .error .notYetImplemented
  else
    let dist2 := if 3 < dist then 6 - dist else dist
    let originV2 := if 3 < dist then -originV else originV
    let originD2 := if 3 < dist then originD + 6 else originD
    match OFFSETS originV2 with
    | none => .error .keyError
    | some tbl =>
      match pyIdx tbl dist2 with
      | none => .error .indexError
      | some entry =>
        .ok (entry.map (fun p => dirVertToLabel ((originD2 + p.1) % 12) (originV2 + p.2)))

/-! ## `Vector.movement_grid` and `shellstar`

The remainder tables `movement_grid_remainders.HORIZONTAL` and `.VERTICAL`
come from a module that is not part of the analysed sources (the spec lists
it as an out-of-scope external data dependency).  They are therefore passed
in explicitly as a `Rem` value, and all theorems below hold for every `Rem`.
`HORIZONTAL[a][b][i]` is a pair of mark strings for the major and minor
columns, `VERTICAL[a][b][i]` a pair whose second member is the vertical
column mark. -/

/-- The external remainder tables, as an explicit parameter. -/
structure Rem where
  horizontal : Nat → Nat → Nat → (List Char × List Char)
  vertical : Nat → Nat → Nat → (List Char × List Char)

/-- The `while h_sum > 7: h_sum -= 8` loop of `movement_grid` (a fuel of 8
covers every value reachable there, the operands being remainders mod 8). -/
def whileGt7Aux : Nat → Int → Int
  | 0, n => n
  | fuel + 1, n => if 7 < n then whileGt7Aux fuel (n - 8) else n

/-- Reduce an integer below 8 by repeated subtraction, as the source loop. -/
def whileGt7 (n : Int) : Int := whileGt7Aux 8 n

/-- `floor(x / 8)` on an integer-valued `Decimal`, in `Decimal` arithmetic
as the source computes it. -/
def floorDiv8 (x : Int) : Int := Dec.floor (Dec.div (Dec.ofInt x) (Dec.ofInt 8))

/-- `Vector.movement_grid`: `"STILL"` for the zero vector, else a header of
direction letters and per-segment "each" counts followed by eight remainder
rows taken from the external tables. -/
def movementGrid (rem : Rem) (u : Uvp) : String :=
  let t := mmv u
  let major := t.1
  let minor := t.2.1
  let vertical := t.2.2
  if major.1 = 0 ∧ vertical.1 = 0 then "STILL"
  else
    let majordir : List Char := if 0 < major.1 then [major.2] else [' ']
    let majoreach : List Char := if 0 < major.1 then intChars (floorDiv8 major.1) else [' ']
    let vmaj : Int := if 0 < major.1 then major.1 - floorDiv8 major.1 * 8 else major.1
    let minordir : List Char := if 0 < minor.1 then [minor.2] else [' ']
    let minoreach : List Char := if 0 < minor.1 then intChars (floorDiv8 minor.1) else [' ']
    let vmin : Int := if 0 < minor.1 then minor.1 - floorDiv8 minor.1 * 8 else minor.1
    let vertdir : List Char := if 0 < vertical.1 then [vertical.2] else [' ']
    let verteach : List Char := if 0 < vertical.1 then intChars (floorDiv8 vertical.1) else [' ']
    let vvert : Int := if 0 < vertical.1 then vertical.1 - floorDiv8 vertical.1 * 8 else vertical.1
    let header : List (List Char) :=
      [ List.intercalate ['|'] [[' '], majordir, minordir, vertdir, []],
        List.intercalate ['|'] [[' '], majoreach, minoreach, verteach, []] ]
    let rows : List (List Char) := (List.range 8).map (fun i =>
      let hm := rem.horizontal vmaj.toNat vmin.toNat i
      let hsum := whileGt7 (vmaj + vmin)
      let vm := rem.vertical hsum.toNat vvert.toNat i
      List.intercalate ['|'] [intChars ((i : Int) + 1), hm.1, hm.2, vm.2, []])
    ⟨List.intercalate ['\n'] (header ++ rows)⟩

/-- Three-way zip, as Python `zip(a, b, c)` (length of the shortest). -/
def zip3 {A B C : Type} : List A → List B → List C → List (A × B × C)
  | a :: as2, b :: bs, c :: cs => (a, b, c) :: zip3 as2 bs cs
  | _, _, _ => []

/-- The `_TO_EVADE` table exactly as written in the source: the first two
string literals `"N/A"` and `"0/1"` are separated by no comma, so Python
concatenates them into the single entry `"N/A0/1"` and the list has nine
entries, not ten. -/
def TO_EVADE : List String :=
  ["N/A" ++ "0/1", "0/2", "1/3", "1/4", "1/5", "2/6", "2/7", "2/7", "2/8"]

/-- The `_TO_EVADE[segments_elapsed]` lookup of `shellstar`, with the
`IndexError` handler falling back to `_TO_EVADE[-1]` (note that a negative
`segments_elapsed` of -1 indexes the last entry directly, without raising). -/
def evadeLookup (i : Int) : String :=
  match pyIdx TO_EVADE i with
  | some s => s
  | none => (pyIdx TO_EVADE (-1)).getD ""

/-- The target-movement precomputation of `shellstar`: reparse the movement
grid text of the crossing vector into one displacement vector string per
segment (all empty when the grid is `"STILL"`).  The identity comparisons of
the source (`is "STILL"`, `is not ' '`, `is '*'`, `is not 0`) are modelled as
value comparisons, which is what CPython's interning makes them in practice. -/
def targetMovement (rem : Rem) (crossing : Uvp) : List String :=
  let grid := movementGrid rem crossing
  if grid = "STILL" then List.replicate 8 ""
  else
    let lines := splitOnChar '\n' grid.data
    let mmvLine := (lines.getD 0 []).drop 2
    let eachLine := (lines.getD 1 []).drop 2
    let gridLines := lines.drop 2
    let which := (splitOnChar '|' mmvLine).dropLast
    let each := (splitOnChar '|' eachLine).dropLast
    let rems := gridLines.map (fun l => ((splitOnChar '|' l).drop 1).dropLast)
    rems.map (fun rseq =>
      let strSeq := (zip3 which each rseq).foldl (fun acc g =>
        if g.1 ≠ [' '] then
          let k1 : Int := if g.2.1 ≠ [' '] then 0 + (pyInt g.2.1).getD 0 else 0
          let k : Int := if g.2.2 = ['*'] then k1 + 1 else k1
          if k ≠ 0 then acc ++ [intChars k ++ g.1] else acc
        else acc) ([] : List (List Char))
      (⟨List.intercalate [' '] strSeq⟩ : String))

/-- The mutable state of the `shellstar` flight loop. -/
structure SSt where
  vec : Uvp
  distanceTo : Dec
  prevDistance : Dec
  segI : Int
  turnI : Int
  elapsed : Int
  closure : List String
deriving Repr

/-- Outcome of the flight loop: early `"No Shot"` return, or loop exit on a
hit with the final state. -/
inductive LoopOut
  | noShot
  | hit (st : SSt)
deriving Repr

/-- The `while in_flight` loop of `shellstar`, fuel-indexed: `none` means the
loop has not terminated within `fuel` iterations (the source loop has no
other bound, so `none` for every fuel models divergence).  Each iteration
aborts if the distance grew, records the closure line, exits on a hit, and
otherwise advances the target by the segment displacement and recomputes the
remaining distance. -/
def ssLoop (tm : List String) (mv : Dec) (showSegs : Bool) :
    Nat → SSt → Option LoopOut
  | 0, _ => none
  | fuel + 1, st =>
    if Dec.blt st.prevDistance st.distanceTo then some .noShot
    else
      let segPre : List Char :=
        if showSegs then intChars st.turnI ++ ':' :: intChars (st.segI + 1)
        else '+' :: intChars st.elapsed
      let distS : List Char :=
        if Dec.ble st.distanceTo (Dec.ofInt 0) then ['H', 'I', 'T']
        else intChars (Dec.floor (Dec.add st.distanceTo HALF))
      let closure2 := st.closure ++ [(⟨segPre ++ ' ' :: distS⟩ : String)]
      if Dec.ble st.distanceTo (Dec.ofInt 0) then
        some (.hit { st with closure := closure2 })
      else
        let elapsed2 := st.elapsed + 1
        let disp := tm.getD st.segI.toNat ""
        let vec2 :=
          if disp ≠ "" then
            match parseVec disp with
            | .ok u => addUvp st.vec u
            | .error _ => st.vec
          else st.vec
        let dist2 := Dec.sub (cartMag vec2)
          (Dec.mul (Dec.div mv (Dec.ofInt 8)) (Dec.ofInt elapsed2))
        let turn2 : Int := if st.segI = 7 then st.turnI + 1 else st.turnI
        let seg2 : Int := if st.segI = 7 then 0 else st.segI + 1
        ssLoop tm mv showSegs fuel
          { vec := vec2, distanceTo := dist2, prevDistance := st.distanceTo,
            segI := seg2, turnI := turn2, elapsed := elapsed2, closure := closure2 }

/-- Is a window label free of vertical marks (`'+' not in w and '-' not in w`)? -/
def pureWindow (w : String) : Bool :=
  ¬ w.data.contains '+' ∧ ¬ w.data.contains '-'

/-- The evasion-options block of `shellstar`: at a pole, the amber-ring
advice; otherwise the three-line diagram built from the ring of windows at
offset 3 around the impact window.  The `AVID` parse and ring errors cannot
occur for windows produced by `bearing` (modelled by a defensive empty
ring); a missing pure window leaves Python's `None`, rendered as `"None"`
by `format`. -/
def evasionOptions (impactWindow : List Char) : List String :=
  if impactWindow = ['+', '+', '+'] ∨ impactWindow = ['-', '-', '-'] then
    [(⟨'(' :: impactWindow ++ [')']⟩ : String), "Evade in Amber Ring"]
  else
    let orth : List String :=
      match avidParse ⟨impactWindow⟩ with
      | .ok w =>
        match offsetRing w 3 with
        | .ok ls => ls
        | .error _ => []
      | .error _ => []
    let up := orth.getD 0 ""
    let right := (orth.find? pureWindow).getD "None"
    let orth2 := orth.drop (orth.length / 2)
    let down := orth2.getD 0 ""
    let left := (orth2.find? pureWindow).getD "None"
    let pad : List Char := List.replicate left.length ' '
    [ (⟨pad ++ ' ' :: ' ' :: up.data⟩ : String),
      (⟨left.data ++ ' ' :: '(' :: impactWindow ++ ')' :: [' '] ++ right.data⟩ : String),
      (⟨pad ++ ' ' :: ' ' :: down.data⟩ : String) ]

/-- The simulation part of `shellstar`, after the target-movement strings
have been computed: run the flight loop and, on termination, compose the
report from evasion options, evasion thrust, closure trace and rate of
closure.  `fuel` bounds the number of loop iterations; `none` models the
source loop failing to terminate within that bound. -/
def shellstarRun (tm : List String) (vectorToTarget crossing : Uvp)
    (muzzleVelocity : Int) (showSegs : Bool) (segI : Int) (fuel : Nat) :
    Option String :=
  let mv := Dec.ofInt muzzleVelocity
  let d0 := cartMag vectorToTarget
  match ssLoop tm mv showSegs fuel
    { vec := vectorToTarget, distanceTo := d0, prevDistance := d0,
      segI := segI, turnI := 0, elapsed := 0, closure := [] } with
  | none => none
  | some .noShot => some "No Shot"
  | some (.hit st) =>
    let elapsed := st.elapsed - 1
    let impactVec := subUvp (0, 0, 0) st.vec
    let impactWindow := (pySplit (bearing impactVec false).data).getD 1 []
    let evasion := evasionOptions impactWindow
    let targetXyz := cartesianOf crossing
    let seekerXyz := cartesianOf st.vec
    let fromDistToMv := Dec.div mv (cartMag st.vec)
    let sx := Dec.mul seekerXyz.1 fromDistToMv
    let sy := Dec.mul seekerXyz.2.1 fromDistToMv
    let sz := Dec.mul seekerXyz.2.2 fromDistToMv
    let iv1 := Dec.add (Dec.ofInt 0) (Dec.sq (Dec.sub sx targetXyz.1))
    let iv2 := Dec.add iv1 (Dec.sq (Dec.sub sy targetXyz.2.1))
    let iv3 := Dec.add iv2 (Dec.sq (Dec.sub sz targetXyz.2.2))
    let impactV := Dec.sqrt iv3
    if Dec.blt impactV ⟨25, -2⟩ then some "No Shot"
    else
      let toEvade := evadeLookup elapsed
      some (String.intercalate "\n"
        [ String.intercalate "\n" evasion,
          ">" ++ toEvade ++ " to evade",
          String.intercalate "\n" st.closure,
          "RoC: " ++ (⟨toStringRounded (Dec.div impactV (Dec.ofInt 8))⟩ : String) ])

/-- The simulation part of `shellstar` with the source's segment handling:
`show_segments = segment is not None` and
`segment_i = ((segment - 1) % 8) if show_segments else 0`. -/
def shellstarCore (tm : List String) (vectorToTarget crossing : Uvp)
    (muzzleVelocity : Int) (segment : Option Int) (fuel : Nat) : Option String :=
  shellstarRun tm vectorToTarget crossing muzzleVelocity segment.isSome
    (match segment with | some s => (s - 1) % 8 | none => 0) fuel

/-- `shellstar`: precompute the per-segment target movement from the
crossing vector's movement grid, then run the simulation.  The optional
`segment` argument and `muzzle_velocity` are the caller's Python `int`
values. -/
def shellstar (rem : Rem) (vectorToTarget crossing : Uvp) (muzzleVelocity : Int)
    (segment : Option Int) (fuel : Nat) : Option String :=
  shellstarCore (targetMovement rem crossing) vectorToTarget crossing
    muzzleVelocity segment fuel

/-- The seven closure lines of the C7 shellstar run. -/
def claim7Closure : List String :=
  ["+0 17", "+1 14", "+2 11", "+3 8", "+4 5", "+5 2", "+6 HIT"]

/-- The ten ASCII digit characters. -/
def digitList : List Char := ['0', '1', '2', '3', '4', '5', '6', '7', '8', '9']

/-- The vertical pair computed by the scan of `_major_minor_vertical`: magnitude and sign character of the vertical component. -/
def vertOf (z : Int) : Int × Char :=
  if 0 < z then (z, '+') else if z < 0 then (-z, '-') else (0, '+')

/-- A bad parse token (claim-side characterization): no numeric prefix, a negative magnitude, or an unrecognized direction letter. -/
def tokenBad (t : List Char) : Prop :=
  pyInt t.dropLast = none ∨
  (∃ n, pyInt t.dropLast = some n ∧ n < 0) ∨
  upperChar (t.getLastD ' ') ∉ CARDINALS

/-! ## Helper lemmas -/

theorem digitChar_toNat : ∀ k : Nat, k < 10 → (digitChar k).toNat = 48 + k := by
  intro k hk
  interval_cases k <;> rfl

/-- The ten decimal digit characters. -/
theorem digitChar_mem : ∀ k : Nat, k < 10 → digitChar k ∈ digitList := by
  intro k hk
  interval_cases k <;> decide

theorem natReprAux_mem : ∀ (fuel n : Nat), n < 10 ^ fuel → 0 < fuel →
    natReprAux fuel n ≠ [] ∧ ∀ c ∈ natReprAux fuel n, c ∈ digitList := by
  intro fuel
  induction fuel with
  | zero => intro n hn hf; omega
  | succ f ih =>
    intro n hn hf
    rw [natReprAux]
    by_cases h : n < 10
    · simp only [if_pos h]
      refine ⟨by simp, ?_⟩
      intro c hc
      simp only [List.mem_singleton] at hc
      subst hc
      exact digitChar_mem n h
    · simp only [if_neg h]
      have hlt : n / 10 < 10 ^ f := by
        rw [Nat.div_lt_iff_lt_mul (by omega)]
        calc n < 10 ^ (f + 1) := hn
        _ = 10 ^ f * 10 := by rw [Nat.pow_succ]
      have hf2 : 0 < f := by
        rcases Nat.eq_zero_or_pos f with h0 | h0
        · subst h0
          simp only [pow_one] at hlt
          omega
        · exact h0
      obtain ⟨h1, h2⟩ := ih (n / 10) hlt hf2
      refine ⟨by simp, ?_⟩
      intro c hc
      rcases List.mem_append.mp hc with hx | hx
      · exact h2 c hx
      · simp only [List.mem_singleton] at hx
        subst hx
        exact digitChar_mem _ (Nat.mod_lt _ (by omega))

theorem digitsVal_append_one (l : List Char) (c : Char) :
    digitsVal (l ++ [c]) = 10 * digitsVal l + (c.toNat - 48) := by
  simp only [digitsVal, List.foldl_append, List.foldl_cons, List.foldl_nil]
  omega

theorem digitsVal_natReprAux : ∀ (fuel n : Nat), n < 10 ^ fuel →
    digitsVal (natReprAux fuel n) = n := by
  intro fuel
  induction fuel with
  | zero =>
    intro n hn
    have h0 : n = 0 := by omega
    subst h0
    rfl
  | succ f ih =>
    intro n hn
    rw [natReprAux]
    by_cases h : n < 10
    · simp only [if_pos h, digitsVal, List.foldl_cons, List.foldl_nil]
      rw [digitChar_toNat n h]
      omega
    · simp only [if_neg h]
      have hlt : n / 10 < 10 ^ f := by
        rw [Nat.div_lt_iff_lt_mul (by omega)]
        calc n < 10 ^ (f + 1) := hn
        _ = 10 ^ f * 10 := by rw [Nat.pow_succ]
      rw [digitsVal_append_one, ih (n / 10) hlt, digitChar_toNat _ (Nat.mod_lt _ (by omega))]
      omega

theorem digit_digitVal : ∀ c ∈ digitList, digitVal c = some (c.toNat - 48) := by
  intro c hc
  fin_cases hc <;> rfl

theorem digit_not_ws : ∀ c ∈ digitList, isPyWs c = false := by
  intro c hc
  fin_cases hc <;> rfl

theorem pyIntDigitsAux_digits : ∀ (l : List Char) (acc : Nat) (b : Bool),
    (∀ c ∈ l, c ∈ digitList) → l ≠ [] →
    pyIntDigitsAux l acc b =
      some (l.foldl (fun a c => a * 10 + (c.toNat - 48)) acc) := by
  intro l
  induction l with
  | nil => intro acc b hd hne; exact absurd rfl hne
  | cons c rest ih =>
    intro acc b hd hne
    have hc := digit_digitVal c (hd c (by simp))
    rcases List.eq_nil_or_concat rest with h0 | h0
    · subst h0
      simp only [pyIntDigitsAux, hc, List.foldl_cons, List.foldl_nil, if_true]
    · have hne2 : rest ≠ [] := by
        obtain ⟨a, b2, hab⟩ := h0
        subst hab
        simp
      simp only [pyIntDigitsAux, hc, List.foldl_cons]
      rw [ih _ true (fun x hx => hd x (by simp [hx])) hne2]

theorem pyInt_eq_default : ∀ (c : Char) (rest : List Char), c ≠ '-' → c ≠ '+' →
    pyInt (c :: rest) = (pyIntDigitsAux (c :: rest) 0 false).map (fun n => (n : Int)) := by
  intro c rest h1 h2
  unfold pyInt
  split
  · rename_i rest2 heq
    injection heq with h3 h4
    exact absurd h3 h1
  · rename_i rest2 heq
    injection heq with h3 h4
    exact absurd h3 h2
  · rfl

theorem pyInt_digit_list : ∀ l : List Char, (∀ c ∈ l, c ∈ digitList) → l ≠ [] →
    pyInt l = some ((digitsVal l : Int)) := by
  intro l hd hne
  have hne2 : pyIntDigitsAux l 0 false = some (digitsVal l) :=
    pyIntDigitsAux_digits l 0 false hd hne
  rcases l with _ | ⟨c, rest⟩
  · exact absurd rfl hne
  · have hc := hd c (by simp)
    rw [pyInt_eq_default c rest (by fin_cases hc <;> decide) (by fin_cases hc <;> decide),
      hne2]
    rfl

theorem natRepr_facts : ∀ n : Nat, n < 10 ^ 400 →
    natRepr n ≠ [] ∧ (∀ c ∈ natRepr n, c ∈ digitList) ∧ digitsVal (natRepr n) = n := by
  intro n hn
  obtain ⟨h1, h2⟩ := natReprAux_mem 400 n hn (by omega)
  exact ⟨h1, h2, digitsVal_natReprAux 400 n hn⟩

theorem pyInt_natRepr : ∀ n : Nat, n < 10 ^ 400 →
    pyInt (natRepr n) = some ((n : Int)) := by
  intro n hn
  obtain ⟨h1, h2, h3⟩ := natRepr_facts n hn
  rw [pyInt_digit_list _ h2 h1, h3]

theorem pySplitAux_chunk : ∀ (t rest acc : List Char), (∀ c ∈ t, isPyWs c = false) →
    pySplitAux (t ++ rest) acc = pySplitAux rest (t.reverse ++ acc) := by
  intro t
  induction t with
  | nil => intro rest acc h; simp
  | cons c t2 ih =>
    intro rest acc h
    have hc : isPyWs c = false := h c (by simp)
    simp only [List.cons_append, pySplitAux, hc, Bool.false_eq_true, if_false,
      List.reverse_cons, List.append_assoc, List.singleton_append]
    exact ih rest (c :: acc) (fun x hx => h x (by simp [hx]))

theorem pySplitAux_nil_acc : ∀ acc : List Char, acc ≠ [] →
    pySplitAux [] acc = [acc.reverse] := by
  intro acc h
  simp only [pySplitAux, if_neg h]

theorem pySplit_joinSep : ∀ ts : List (List Char),
    (∀ t ∈ ts, t ≠ [] ∧ ∀ c ∈ t, isPyWs c = false) →
    pySplit (joinSep [' '] ts) = ts := by
  intro ts
  induction ts with
  | nil => intro h; rfl
  | cons t rest ih =>
    intro h
    obtain ⟨hne, hnws⟩ := h t (by simp)
    rcases rest with _ | ⟨t2, rest2⟩
    · show pySplitAux t [] = [t]
      have h2 := pySplitAux_chunk t [] [] hnws
      rw [List.append_nil] at h2
      rw [h2, List.append_nil, pySplitAux_nil_acc _ (by simp [hne]), List.reverse_reverse]
    · have hj : joinSep [' '] (t :: t2 :: rest2) =
          t ++ (' ' :: joinSep [' '] (t2 :: rest2)) := by
        rw [joinSep]
        simp [List.append_assoc]
      show pySplitAux (joinSep [' '] (t :: t2 :: rest2)) [] = t :: t2 :: rest2
      rw [hj, pySplitAux_chunk t _ [] hnws, List.append_nil]
      have hrev : t.reverse ≠ [] := by simp [hne]
      simp only [pySplitAux, show isPyWs ' ' = true from rfl, if_true, if_neg hrev,
        List.reverse_reverse]
      exact congrArg _ (ih (fun x hx => h x (by simp [hx])))

theorem upper_cardinal : ∀ c ∈ CARDINALS, upperChar c = c := by
  intro c hc
  fin_cases hc <;> rfl

theorem cardinal_not_ws : ∀ c ∈ CARDINALS, isPyWs c = false := by
  intro c hc
  fin_cases hc <;> rfl

theorem getLastD_concat2 : ∀ (l : List Char) (c d : Char), (l ++ [c]).getLastD d = c := by
  intro l
  induction l with
  | nil => intro c d; rfl
  | cons x l2 ih =>
    intro c d
    rw [List.cons_append]
    rcases List.exists_cons_of_ne_nil (l := l2 ++ [c]) (by simp) with ⟨y, ys, hy⟩
    rw [show ((x :: (l2 ++ [c])).getLastD d) = (l2 ++ [c]).getLastD d from by rw [hy]; rfl]
    exact ih c d

theorem parseTokens_ok : ∀ (ts : List (Int × Char)) (d : VDict) (seen : List Char),
    (∀ p ∈ ts, 0 ≤ p.1 ∧ p.1 < 10 ^ 400 ∧ p.2 ∈ CARDINALS) →
    (seen ++ ts.map Prod.snd).Nodup →
    parseTokens (ts.map (fun p => natRepr p.1.toNat ++ [p.2])) d seen =
      .ok (ts.foldl (fun dd p => vset dd p.2 p.1) d) := by
  intro ts
  induction ts with
  | nil => intro d seen hp hn; rfl
  | cons p ts2 ih =>
    intro d seen hp hn
    obtain ⟨hp1, hp2, hp3⟩ := hp p (by simp)
    have htoNat : ((p.1.toNat : Nat) : Int) = p.1 := Int.toNat_of_nonneg hp1
    have hnat : p.1.toNat < 10 ^ 400 := by omega
    simp only [List.map_cons, parseTokens, List.dropLast_concat,
      pyInt_natRepr _ hnat, htoNat]
    rw [if_neg (by omega)]
    rw [getLastD_concat2, upper_cardinal p.2 hp3]
    rw [List.map_cons] at hn
    obtain ⟨hs, ht, hdisj⟩ := List.nodup_append.mp hn
    have hnotin : p.2 ∉ seen := fun hmem => hdisj hmem (by simp)
    rw [if_neg hnotin, if_neg (fun hno => hno hp3)]
    rw [ih (vset d p.2 p.1) (seen ++ [p.2]) (fun q hq => hp q (by simp [hq])) ?_]
    · rfl
    · rw [List.append_assoc, List.singleton_append]
      exact hn

theorem vfu_eq_consolidate (u v z : Int) :
    vectorsFromUvp (u, v, z) =
      consolidate120 (consolidate120 (place3 u v z) 'A' 'B' 'C') 'D' 'E' 'F' := rfl

theorem place3_A (u v z : Int) : place3 u v z 'A' = if v < 0 then -v else 0 := by
  simp only [place3, placeInVector, vzero, vset, ite_apply, Char.reduceEq, reduceIte]
  split_ifs <;> first
  | rfl
  | omega

theorem place3_B (u v z : Int) : place3 u v z 'B' = 0 := by
  simp only [place3, placeInVector, vzero, vset, ite_apply, Char.reduceEq, reduceIte]
  split_ifs <;> first
  | rfl
  | omega

theorem place3_C (u v z : Int) : place3 u v z 'C' = if 0 < u then u else 0 := by
  simp only [place3, placeInVector, vzero, vset, ite_apply, Char.reduceEq, reduceIte]
  split_ifs <;> first
  | rfl
  | omega

theorem place3_D (u v z : Int) : place3 u v z 'D' = if 0 < v then v else 0 := by
  simp only [place3, placeInVector, vzero, vset, ite_apply, Char.reduceEq, reduceIte]
  split_ifs <;> first
  | rfl
  | omega

theorem place3_E (u v z : Int) : place3 u v z 'E' = 0 := by
  simp only [place3, placeInVector, vzero, vset, ite_apply, Char.reduceEq, reduceIte]
  split_ifs <;> first
  | rfl
  | omega

theorem place3_F (u v z : Int) : place3 u v z 'F' = if u < 0 then -u else 0 := by
  simp only [place3, placeInVector, vzero, vset, ite_apply, Char.reduceEq, reduceIte]
  split_ifs <;> first
  | rfl
  | omega

theorem place3_P (u v z : Int) : place3 u v z '+' = if 0 < z then z else 0 := by
  simp only [place3, placeInVector, vzero, vset, ite_apply, Char.reduceEq, reduceIte]
  split_ifs <;> first
  | rfl
  | omega

theorem place3_M (u v z : Int) : place3 u v z '-' = if z < 0 then -z else 0 := by
  simp only [place3, placeInVector, vzero, vset, ite_apply, Char.reduceEq, reduceIte]
  split_ifs <;> first
  | rfl
  | omega

theorem consolidate_noop (d : VDict) (a b c : Char)
    (h1 : ¬(0 < d c ∧ d c ≤ d a)) (h2 : ¬(0 < d a ∧ d a ≤ d c)) :
    consolidate120 d a b c = d := by
  simp only [consolidate120]
  rw [if_neg h1, if_neg h2]

theorem consolidate_fire_cw (d : VDict) (a b c : Char)
    (h1 : 0 < d c ∧ d c ≤ d a) :
    consolidate120 d a b c = vset (vset (vset d b (d c)) c 0) a (d a - d c) := by
  simp only [consolidate120]
  rw [if_pos h1]

theorem consolidate_fire_ccw (d : VDict) (a b c : Char)
    (h1 : ¬(0 < d c ∧ d c ≤ d a)) (h2 : 0 < d a ∧ d a ≤ d c) :
    consolidate120 d a b c = vset (vset (vset d b (d a)) a 0) c (d c - d a) := by
  simp only [consolidate120]
  rw [if_neg h1, if_pos h2]

theorem vfu_case_mix (u v z : Int) (h : 0 ≤ u ∧ 0 ≤ v ∨ u ≤ 0 ∧ v ≤ 0) :
    vectorsFromUvp (u, v, z) = place3 u v z := by
  have e1 : consolidate120 (place3 u v z) 'A' 'B' 'C' = place3 u v z :=
    consolidate_noop _ _ _ _
      (by rw [place3_C, place3_A]; split_ifs <;> omega)
      (by rw [place3_A, place3_C]; split_ifs <;> omega)
  rw [vfu_eq_consolidate, e1]
  exact consolidate_noop _ _ _ _
    (by rw [place3_F, place3_D]; split_ifs <;> omega)
    (by rw [place3_D, place3_F]; split_ifs <;> omega)

theorem vfu_case_ab (u v z : Int) (hu : 0 < u) (hv : v < 0) (hcmp : u ≤ -v) :
    vectorsFromUvp (u, v, z) =
      vset (vset (vset (place3 u v z) 'B' u) 'C' 0) 'A' (-v - u) := by
  have hA : place3 u v z 'A' = -v := by rw [place3_A, if_pos hv]
  have hC : place3 u v z 'C' = u := by rw [place3_C, if_pos hu]
  have e1 : consolidate120 (place3 u v z) 'A' 'B' 'C' =
      vset (vset (vset (place3 u v z) 'B' u) 'C' 0) 'A' (-v - u) := by
    rw [consolidate_fire_cw _ _ _ _ ⟨by rw [hC]; omega, by rw [hC, hA]; omega⟩ ]
    rw [hA, hC]
  rw [vfu_eq_consolidate, e1]
  refine consolidate_noop _ _ _ _ ?_ ?_ <;>
    (simp only [vset, Char.reduceEq, reduceIte, place3_F, place3_D]
     split_ifs <;> omega)

theorem vfu_case_bc (u v z : Int) (hu : 0 < u) (hv : v < 0) (hcmp : -v < u) :
    vectorsFromUvp (u, v, z) =
      vset (vset (vset (place3 u v z) 'B' (-v)) 'A' 0) 'C' (u + v) := by
  have hA : place3 u v z 'A' = -v := by rw [place3_A, if_pos hv]
  have hC : place3 u v z 'C' = u := by rw [place3_C, if_pos hu]
  have e1 : consolidate120 (place3 u v z) 'A' 'B' 'C' =
      vset (vset (vset (place3 u v z) 'B' (-v)) 'A' 0) 'C' (u + v) := by
    rw [consolidate_fire_ccw _ _ _ _ (by rw [hC, hA]; omega) ⟨by rw [hA]; omega, by rw [hA, hC]; omega⟩ ]
    rw [hA, hC]
    have : u - -v = u + v := by omega
    rw [this]
  rw [vfu_eq_consolidate, e1]
  refine consolidate_noop _ _ _ _ ?_ ?_ <;>
    (simp only [vset, Char.reduceEq, reduceIte, place3_F, place3_D]
     split_ifs <;> omega)

theorem vfu_case_de (u v z : Int) (hu : u < 0) (hv : 0 < v) (hcmp : -u ≤ v) :
    vectorsFromUvp (u, v, z) =
      vset (vset (vset (place3 u v z) 'E' (-u)) 'F' 0) 'D' (v + u) := by
  have hD : place3 u v z 'D' = v := by rw [place3_D, if_pos hv]
  have hF : place3 u v z 'F' = -u := by rw [place3_F, if_pos hu]
  have e1 : consolidate120 (place3 u v z) 'A' 'B' 'C' = place3 u v z :=
    consolidate_noop _ _ _ _
      (by rw [place3_C, place3_A]; split_ifs <;> omega)
      (by rw [place3_A, place3_C]; split_ifs <;> omega)
  rw [vfu_eq_consolidate, e1]
  rw [consolidate_fire_cw _ _ _ _ ⟨by rw [hF]; omega, by rw [hF, hD]; omega⟩ ]
  rw [hD, hF]
  have : v - -u = v + u := by omega
  rw [this]

theorem vfu_case_ef (u v z : Int) (hu : u < 0) (hv : 0 < v) (hcmp : v < -u) :
    vectorsFromUvp (u, v, z) =
      vset (vset (vset (place3 u v z) 'E' v) 'D' 0) 'F' (-u - v) := by
  have hD : place3 u v z 'D' = v := by rw [place3_D, if_pos hv]
  have hF : place3 u v z 'F' = -u := by rw [place3_F, if_pos hu]
  have e1 : consolidate120 (place3 u v z) 'A' 'B' 'C' = place3 u v z :=
    consolidate_noop _ _ _ _
      (by rw [place3_C, place3_A]; split_ifs <;> omega)
      (by rw [place3_A, place3_C]; split_ifs <;> omega)
  rw [vfu_eq_consolidate, e1]
  rw [consolidate_fire_ccw _ _ _ _ (by rw [hF, hD]; omega) ⟨by rw [hD]; omega, by rw [hD, hF]; omega⟩ ]
  rw [hD, hF]

theorem vfu_shape (u v z : Int) : ∃ c1 c2 a b,
    (c1 = c2 ∨ adjacentH c1 c2 = true) ∧ c1 ∈ CARDINAL_H ∧ c2 ∈ CARDINAL_H ∧
    0 ≤ a ∧ 0 ≤ b ∧ a ≤ (u.natAbs : Int) + v.natAbs ∧ b ≤ (u.natAbs : Int) + v.natAbs ∧
    (∀ c ∈ CARDINAL_H, vectorsFromUvp (u, v, z) c =
      (if c = c1 then a else if c = c2 then b else 0)) ∧
    vectorsFromUvp (u, v, z) '+' = (if 0 < z then z else 0) ∧
    vectorsFromUvp (u, v, z) '-' = (if z < 0 then -z else 0) := by
  rcases lt_trichotomy u 0 with hu | hu | hu
  · rcases lt_trichotomy v 0 with hv | hv | hv
    · rw [vfu_case_mix u v z (Or.inr ⟨by omega, by omega⟩)]
      refine ⟨'F', 'A', -u, -v, Or.inr (by decide), by decide, by decide,
        by omega, by omega, by omega, by omega, ?_, by rw [place3_P], by rw [place3_M]⟩
      intro c hc
      fin_cases hc <;>
        simp only [place3_A, place3_B, place3_C, place3_D, place3_E, place3_F,
          Char.reduceEq, reduceIte] <;>
        split_ifs <;> omega
    · rw [vfu_case_mix u v z (Or.inr ⟨by omega, by omega⟩)]
      refine ⟨'F', 'F', -u, -u, Or.inl rfl, by decide, by decide,
        by omega, by omega, by omega, by omega, ?_, by rw [place3_P], by rw [place3_M]⟩
      intro c hc
      fin_cases hc <;>
        simp only [place3_A, place3_B, place3_C, place3_D, place3_E, place3_F,
          Char.reduceEq, reduceIte] <;>
        split_ifs <;> omega
    · rcases le_or_lt (-u) v with hcmp | hcmp
      · rw [vfu_case_de u v z hu hv hcmp]
        refine ⟨'E', 'D', -u, v + u, Or.inr (by decide), by decide, by decide,
          by omega, by omega, by omega, by omega, ?_,
          by simp only [vset, Char.reduceEq, reduceIte, place3_P],
          by simp only [vset, Char.reduceEq, reduceIte, place3_M]⟩
        intro c hc
        fin_cases hc <;>
          simp only [vset, place3_A, place3_B, place3_C, place3_D, place3_E, place3_F,
            Char.reduceEq, reduceIte] <;>
          split_ifs <;> omega
      · rw [vfu_case_ef u v z hu hv hcmp]
        refine ⟨'E', 'F', v, -u - v, Or.inr (by decide), by decide, by decide,
          by omega, by omega, by omega, by omega, ?_,
          by simp only [vset, Char.reduceEq, reduceIte, place3_P],
          by simp only [vset, Char.reduceEq, reduceIte, place3_M]⟩
        intro c hc
        fin_cases hc <;>
          simp only [vset, place3_A, place3_B, place3_C, place3_D, place3_E, place3_F,
            Char.reduceEq, reduceIte] <;>
          split_ifs <;> omega
  · rcases lt_trichotomy v 0 with hv | hv | hv
    · rw [vfu_case_mix u v z (Or.inr ⟨by omega, by omega⟩)]
      refine ⟨'A', 'A', -v, -v, Or.inl rfl, by decide, by decide,
        by omega, by omega, by omega, by omega, ?_, by rw [place3_P], by rw [place3_M]⟩
      intro c hc
      fin_cases hc <;>
        simp only [place3_A, place3_B, place3_C, place3_D, place3_E, place3_F,
          Char.reduceEq, reduceIte] <;>
        split_ifs <;> omega
    · rw [vfu_case_mix u v z (Or.inl ⟨by omega, by omega⟩)]
      refine ⟨'A', 'A', 0, 0, Or.inl rfl, by decide, by decide,
        by omega, by omega, by omega, by omega, ?_, by rw [place3_P], by rw [place3_M]⟩
      intro c hc
      fin_cases hc <;>
        simp only [place3_A, place3_B, place3_C, place3_D, place3_E, place3_F,
          Char.reduceEq, reduceIte] <;>
        split_ifs <;> omega
    · rw [vfu_case_mix u v z (Or.inl ⟨by omega, by omega⟩)]
      refine ⟨'D', 'D', v, v, Or.inl rfl, by decide, by decide,
        by omega, by omega, by omega, by omega, ?_, by rw [place3_P], by rw [place3_M]⟩
      intro c hc
      fin_cases hc <;>
        simp only [place3_A, place3_B, place3_C, place3_D, place3_E, place3_F,
          Char.reduceEq, reduceIte] <;>
        split_ifs <;> omega
  · rcases lt_trichotomy v 0 with hv | hv | hv
    · rcases le_or_lt u (-v) with hcmp | hcmp
      · rw [vfu_case_ab u v z hu hv hcmp]
        refine ⟨'B', 'A', u, -v - u, Or.inr (by decide), by decide, by decide,
          by omega, by omega, by omega, by omega, ?_,
          by simp only [vset, Char.reduceEq, reduceIte, place3_P],
          by simp only [vset, Char.reduceEq, reduceIte, place3_M]⟩
        intro c hc
        fin_cases hc <;>
          simp only [vset, place3_A, place3_B, place3_C, place3_D, place3_E, place3_F,
            Char.reduceEq, reduceIte] <;>
          split_ifs <;> omega
      · rw [vfu_case_bc u v z hu hv hcmp]
        refine ⟨'B', 'C', -v, u + v, Or.inr (by decide), by decide, by decide,
          by omega, by omega, by omega, by omega, ?_,
          by simp only [vset, Char.reduceEq, reduceIte, place3_P],
          by simp only [vset, Char.reduceEq, reduceIte, place3_M]⟩
        intro c hc
        fin_cases hc <;>
          simp only [vset, place3_A, place3_B, place3_C, place3_D, place3_E, place3_F,
            Char.reduceEq, reduceIte] <;>
          split_ifs <;> omega
    · rw [vfu_case_mix u v z (Or.inl ⟨by omega, by omega⟩)]
      refine ⟨'C', 'C', u, u, Or.inl rfl, by decide, by decide,
        by omega, by omega, by omega, by omega, ?_, by rw [place3_P], by rw [place3_M]⟩
      intro c hc
      fin_cases hc <;>
        simp only [place3_A, place3_B, place3_C, place3_D, place3_E, place3_F,
          Char.reduceEq, reduceIte] <;>
        split_ifs <;> omega
    · rw [vfu_case_mix u v z (Or.inl ⟨by omega, by omega⟩)]
      refine ⟨'C', 'D', u, v, Or.inr (by decide), by decide, by decide,
        by omega, by omega, by omega, by omega, ?_, by rw [place3_P], by rw [place3_M]⟩
      intro c hc
      fin_cases hc <;>
        simp only [place3_A, place3_B, place3_C, place3_D, place3_E, place3_F,
          Char.reduceEq, reduceIte] <;>
        split_ifs <;> omega

theorem adjacentH_symm (x y : Char) : adjacentH x y = adjacentH y x := by
  simp only [adjacentH, decide_eq_decide]
  exact or_comm

theorem mmFold_nonneg (d : VDict) : ∀ (l : List Char) (mm : (Int × Char) × (Int × Char)),
    0 ≤ mm.1.1 → 0 ≤ mm.2.1 →
    0 ≤ (l.foldl (mmStep d) mm).1.1 ∧ 0 ≤ (l.foldl (mmStep d) mm).2.1 := by
  intro l
  induction l with
  | nil => intro mm h1 h2; exact ⟨h1, h2⟩
  | cons a l2 ih =>
    intro mm h1 h2
    rw [List.foldl_cons]
    refine ih _ ?_ ?_ <;>
      (simp only [mmStep]; split_ifs <;> simp_all <;> omega)

theorem vertFold_nonneg (d : VDict) :
    0 ≤ ((['-', '+'] : List Char).foldl
      (fun w dir => if w.1 < d dir then (d dir, dir) else w) ((0 : Int), '+')).1 := by
  simp only [List.foldl]
  split_ifs <;> simp_all <;> omega

/-- C1: every vector obtained from a valid token string, and every vector
produced by addition or subtraction, satisfies the canonical-form invariant:
at most two nonzero horizontal directions, any two of them 60 degrees apart
(never 120), and all decomposed magnitudes non-negative. -/
theorem claim1_canonical_invariant :
    (∀ (s : String) (uvp : Uvp), parseVec s = .ok uvp → canonInv uvp) ∧
    (∀ a b : Uvp, canonInv (addUvp a b)) ∧
    (∀ a b : Uvp, canonInv (subUvp a b)) := by
  have master : ∀ uvp : Uvp, canonInv uvp := by
    rintro ⟨u, v, z⟩
    obtain ⟨c1, c2, a, b, hadj, hc1, hc2, ha, hb, hab1, hab2, hH, hP, hM⟩ := vfu_shape u v z
    have memSplit : ∀ x : Char, x ∈ CARDINAL_H →
        vectorsFromUvp (u, v, z) x ≠ 0 → x = c1 ∨ x = c2 := by
      intro x hx hdx
      rw [hH x hx] at hdx
      by_contra hno
      push_neg at hno
      rw [if_neg hno.1, if_neg hno.2] at hdx
      exact hdx rfl
    refine ⟨?_, ?_, ?_, ?_, ?_, ?_⟩
    · intro c hc
      rcases List.mem_append.mp hc with h | h
      · rw [hH c h]
        split_ifs <;> omega
      · fin_cases h
        · rw [hP]; split_ifs <;> omega
        · rw [hM]; split_ifs <;> omega
    · intro x hx y hy hdx hdy
      rcases memSplit x hx hdx with h1 | h1 <;> rcases memSplit y hy hdy with h2 | h2 <;>
        subst h1 <;> subst h2
      · exact Or.inl rfl
      · rcases hadj with he | ha2
        · exact Or.inl he
        · exact Or.inr ha2
      · rcases hadj with he | ha2
        · exact Or.inl he.symm
        · exact Or.inr (by rw [adjacentH_symm]; exact ha2)
      · exact Or.inl rfl
    · rintro x hx y hy w hw hxy hxw hyw ⟨hdx, hdy, hdw⟩
      rcases memSplit x hx hdx with h1 | h1 <;>
        rcases memSplit y hy hdy with h2 | h2 <;>
        rcases memSplit w hw hdw with h3 | h3 <;>
        subst h1 <;> subst h2 <;> subst h3 <;>
        first
        | exact hxy rfl
        | exact hxw rfl
        | exact hyw rfl
    · exact (mmFold_nonneg (vectorsFromUvp (u, v, z)) CARDINAL_H
        (((0 : Int), 'A'), ((0 : Int), 'A')) (le_refl 0) (le_refl 0)).1
    · exact (mmFold_nonneg (vectorsFromUvp (u, v, z)) CARDINAL_H
        (((0 : Int), 'A'), ((0 : Int), 'A')) (le_refl 0) (le_refl 0)).2
    · exact vertFold_nonneg _
  exact ⟨fun s uvp _ => master uvp, fun a b => master _, fun a b => master _⟩

/-- Witness for C1: the invariant holds at the vector parsed from
`"13A 5B 4-"`. -/
theorem claim1_witness : canonInv (5, -18, -4) :=
  claim1_canonical_invariant.1 "13A 5B 4-" (5, -18, -4) rfl

/-! ## Claims -/

/-- C6 (counter-evidence): the claim says pole-ring windows (+3 and -3) make
`offset_ring` raise the "not yet implemented" error at every distance 0..6.
In the source the pole test is `origin_v in [3 or -3]`, which is `in [3]`:
ring +3 does raise it, but a ring -3 origin raises a `KeyError` for
distances up to 3, and for distances 4..6 flips to ring +3 and happily
returns a list of (malformed, six-plus-sign) windows instead of raising. -/
theorem claim6_pole_offset_bug :
    avidParse "---" = .ok ⟨0, -3, "---"⟩ ∧
    (avidParse "---").map (fun w => offsetRing w 6) = .ok (.ok ["D++++++"]) ∧
    (avidParse "---").map (fun w => offsetRing w 2) = .ok (.error .keyError) ∧
    (avidParse "+++").map (fun w => offsetRing w 6) = .ok (.error .notYetImplemented) := by
  refine ⟨rfl, rfl, rfl, rfl⟩

/-- C9 (counter-evidence): the claim says the evasion thrust comes from
1-indexing a fixed 10-entry table, clamped to the last entry.  The source
list `_TO_EVADE` is missing the comma after its first literal `"N/A"`, so
Python concatenates `"N/A" "0/1"` into one entry: the table has 9 entries,
its head is the garbage string `"N/A0/1"`, and an elapsed count of 1 looks
up `"0/2"` where the claim's 10-entry table gives `"0/1"` (the clamping via
the `IndexError` handler is as claimed, and an elapsed count of -1 silently
indexes the last entry). -/
theorem claim9_to_evade_bug :
    TO_EVADE.length = 9 ∧
    TO_EVADE.getD 0 "" = "N/A0/1" ∧
    evadeLookup 1 = "0/2" ∧ evadeLookup 5 = "2/6" ∧
    evadeLookup 100 = "2/8" ∧ evadeLookup (-1) = "2/8" := by
  refine ⟨rfl, rfl, rfl, rfl, rfl, rfl⟩

/-- C2 (counterexample): the empty string parses to the zero vector, which
formats as `"STILL"`, and `"STILL"` does not parse back (`int("STIL")`
raises), so `parse(format(parse("")))` is an error, not `parse("")`. -/
theorem claim2_cex_still :
    parseVec "" = .ok (0, 0, 0) ∧
    formatVec (0, 0, 0) = "STILL" ∧
    parseVec "STILL" = .error .intError := by
  refine ⟨rfl, rfl, rfl⟩

/-- C4 (counterexample): for `"1A 5+"` the major component is (1, A) and the
minor is zero, so the claim says the window is reported as the major's
single letter `A` (no edge label, since 3 * 0 < 1).  But the vertical
magnitude reaches the third height tier, the code erases the direction, and
the reported window is the pure vertical `+++`, which contains neither an
`A` nor an edge separator. -/
theorem claim4_cex_height3 :
    parseVec "1A 5+" = .ok (0, -1, 5) ∧
    (mmv (0, -1, 5)).1 = (1, 'A') ∧
    (mmv (0, -1, 5)).2.1.1 * 3 < (mmv (0, -1, 5)).1.1 ∧
    bearing (0, -1, 5) false = "5 +++" ∧
    (pySplit ("5 +++").data).getD 1 [] = ['+', '+', '+'] ∧
    (['+', '+', '+'] : List Char).contains 'A' = false ∧
    (['+', '+', '+'] : List Char).contains '/' = false := by
  refine ⟨rfl, rfl, by decide, rfl, rfl, rfl, rfl⟩

/-- C7: `shellstar` on the vector parsed from `"13A 5B 4-"`, the zero
(STILL) crossing vector, muzzle velocity 24 and no launch segment terminates
(fuel 20 suffices) with a report whose closure trace is exactly the seven
lines tagged `+0` through `+6`, the last reading HIT, and whose
rate-of-closure line is `RoC: 3`.  The crossing vector is STILL, so the
result does not depend on the external remainder tables: the theorem holds
for every `Rem`. -/
theorem claim7_shellstar_trace : ∀ rem : Rem,
    parseVec "13A 5B 4-" = .ok (5, -18, -4) ∧
    parseVec "" = .ok (0, 0, 0) ∧
    shellstar rem (5, -18, -4) (0, 0, 0) 24 none 20 =
      some (String.intercalate "\n"
        (["   +++", "F (D/E) C", "   ---", ">2/6 to evade"]
          ++ claim7Closure ++ ["RoC: 3"])) ∧
    claim7Closure.length = 7 := by
  intro rem
  refine ⟨rfl, rfl, ?_, rfl⟩
  show shellstarCore (targetMovement rem (0, 0, 0)) (5, -18, -4) (0, 0, 0) 24 none 20 = _
  rw [show targetMovement rem (0, 0, 0) = List.replicate 8 "" from rfl]
  rfl

/-- Invariant for the C5 divergence: with the still target of `"5A"`, zero
muzzle velocity and no displacement, every iteration of the flight loop
recomputes the same distance (exactly 5), so the loop never exits within any
fuel bound, whatever the segment and turn counters and closure log hold. -/
theorem ssLoopStillNone : ∀ (fuel : Nat) (st : SSt), st.vec = (0, -5, 0) →
    st.distanceTo = cartMag (0, -5, 0) → st.prevDistance = cartMag (0, -5, 0) →
    ssLoop (List.replicate 8 "") (Dec.ofInt 0) false fuel st = none := by
  intro fuel
  induction fuel with
  | zero => intro st hv hd hp; rfl
  | succ n ih =>
    intro st hv hd hp
    obtain ⟨vec, dist, prev, seg, turn, el, cl⟩ := st
    simp only at hv hd hp
    subst hv hd hp
    have h1 : Dec.blt (cartMag (0, -5, 0)) (cartMag (0, -5, 0)) = false := rfl
    have h2 : Dec.ble (cartMag (0, -5, 0)) (Dec.ofInt 0) = false := rfl
    have hget : ∀ i : Nat, (List.replicate 8 "").getD i "" = "" := by
      intro i
      match i with
      | 0 => rfl
      | 1 => rfl
      | 2 => rfl
      | 3 => rfl
      | 4 => rfl
      | 5 => rfl
      | 6 => rfl
      | 7 => rfl
      | j + 8 => rfl
    have h3 : ∀ k : Int, Dec.sub (cartMag (0, -5, 0))
        (Dec.mul (Dec.div (Dec.ofInt 0) (Dec.ofInt 8)) (Dec.ofInt k)) = cartMag (0, -5, 0) := by
      intro k
      show Dec.sub _ (Dec.mul ⟨0, 0⟩ ⟨k, 0⟩) = _
      show Dec.sub _ (Dec.roundPrec ⟨0 * k, 0 + 0⟩) = _
      rw [Int.zero_mul]
      rfl
    simp only [ssLoop, h1, h2, hget, h3, Bool.false_eq_true, if_false, ne_eq,
      not_true_eq_false, not_false_eq_true, if_true, ite_self]
    exact ih _ rfl rfl rfl

/-- C5 (counter-evidence): the claim says the shellstar loop ends after
finitely many segments for every pair of vectors and every non-negative
muzzle velocity.  With `vector_to_target = Vector("5A")`, a STILL crossing
vector and muzzle velocity 0 the distance stays exactly 5 forever: it never
exceeds the previous distance (so "No Shot" is never returned) and never
reaches 0 (so HIT never happens), and the loop runs forever - the model
returns `none` for every fuel bound, and for every remainder table. -/
theorem claim5_shellstar_diverges : ∀ (rem : Rem) (fuel : Nat),
    parseVec "5A" = .ok (0, -5, 0) ∧
    shellstar rem (0, -5, 0) (0, 0, 0) 0 none fuel = none := by
  intro rem fuel
  refine ⟨rfl, ?_⟩
  show shellstarCore (targetMovement rem (0, 0, 0)) (0, -5, 0) (0, 0, 0) 0 none fuel = none
  rw [show targetMovement rem (0, 0, 0) = List.replicate 8 "" from rfl]
  simp only [shellstarCore, shellstarRun, Option.isSome_none]
  rw [ssLoopStillNone fuel _ rfl rfl rfl]

/-- C10: `shellstar` never rejects an out-of-range launch segment: the
starting segment index is `(segment - 1) % 8` (Python semantics, result in
`0..7`), so any integer behaves exactly like `((segment - 1) % 8) + 1`; in
particular 9 behaves like 1 and 0 like 8, and no error is possible. -/
theorem claim10_segment_wrap : ∀ (rem : Rem) (v c : Uvp) (mv : Int) (s : Int) (fuel : Nat),
    shellstar rem v c mv (some s) fuel =
      shellstar rem v c mv (some ((s - 1) % 8 + 1)) fuel ∧
    (9 - 1) % 8 + 1 = (1 : Int) ∧ (0 - 1) % 8 + 1 = (8 : Int) := by
  intro rem v c mv s fuel
  refine ⟨?_, by decide, by decide⟩
  have h : (s - 1) % 8 + 1 - 1 = (s - 1) % 8 := by omega
  have h2 : ((s - 1) % 8) % 8 = (s - 1) % 8 := Int.emod_emod_of_dvd _ dvd_rfl
  show shellstarRun (targetMovement rem c) v c mv true ((s - 1) % 8) fuel =
    shellstarRun (targetMovement rem c) v c mv true (((s - 1) % 8 + 1 - 1) % 8) fuel
  rw [h, h2]

/-- C8: for a window in rings -2..2 and a distance 4..6, `offset_ring`
flips to the antipodal origin: it negates the origin ring, rotates the
origin direction by six windows (mod 12), and uses the offset-table entry
for distance `6 - d`; concretely, from `F-` the ring at distance 0 is
`[F-]` itself and at distance 6 it is `[C+]`, the window diametrically
opposite. -/
theorem claim8_offset_flip :
    (∀ (w : Avid) (d : Int), -2 ≤ w.vertical → w.vertical ≤ 2 → 4 ≤ d → d ≤ 6 →
      ∃ tbl entry, OFFSETS (-w.vertical) = some tbl ∧
        tbl.get? (6 - d).toNat = some entry ∧
        offsetRing w d = .ok (entry.map (fun p =>
          dirVertToLabel ((w.direction + 6 + p.1) % 12) (-w.vertical + p.2)))) ∧
    avidParse "F-" = .ok ⟨10, -1, "F-"⟩ ∧
    offsetRing ⟨10, -1, "F-"⟩ 0 = .ok ["F-"] ∧
    offsetRing ⟨10, -1, "F-"⟩ 6 = .ok ["C+"] := by
  refine ⟨?_, rfl, rfl, rfl⟩
  intro w d hv1 hv2 hd1 hd2
  obtain ⟨dir, v, label⟩ := w
  simp only at hv1 hv2 ⊢
  interval_cases v <;> interval_cases d <;> exact ⟨_, _, rfl, rfl, rfl⟩

/-- C8 witness: the flip rule instantiated at the window `F-` (direction 10,
ring -1) and distance 5. -/
theorem claim8_witness :
    ∃ tbl entry, OFFSETS (-(⟨10, -1, "F-"⟩ : Avid).vertical) = some tbl ∧
      tbl.get? ((6 - 5 : Int)).toNat = some entry ∧
      offsetRing ⟨10, -1, "F-"⟩ 5 = .ok (entry.map (fun p =>
        dirVertToLabel (((⟨10, -1, "F-"⟩ : Avid).direction + 6 + p.1) % 12)
          (-(⟨10, -1, "F-"⟩ : Avid).vertical + p.2))) :=
  claim8_offset_flip.1 ⟨10, -1, "F-"⟩ 5 (by decide) (by decide) (by decide) (by decide)



theorem intChars_nonneg (n : Int) (h : 0 ≤ n) : intChars n = natRepr n.toNat := by
  rw [intChars, if_neg (by omega)]
  congr 1
  omega

theorem uvpFromVectors_ext (d d' : VDict) (h : ∀ c ∈ CARDINALS, d c = d' c) :
    uvpFromVectors d = uvpFromVectors d' := by
  simp only [uvpFromVectors, h 'A' (by decide), h 'B' (by decide), h 'C' (by decide),
    h 'D' (by decide), h 'E' (by decide), h 'F' (by decide), h '+' (by decide),
    h '-' (by decide)]

theorem uvpRoundTrip : ∀ u v z : Int,
    uvpFromVectors (vectorsFromUvp (u, v, z)) = (u, v, z) := by
  intro u v z
  rcases lt_trichotomy u 0 with hu | hu | hu
  · rcases lt_trichotomy v 0 with hv | hv | hv
    · rw [vfu_case_mix u v z (Or.inr ⟨by omega, by omega⟩)]
      simp only [uvpFromVectors, vset, place3_A, place3_B, place3_C, place3_D, place3_E,
        place3_F, place3_P, place3_M, Char.reduceEq, reduceIte]
      split_ifs <;> simp only [Prod.mk.injEq] <;> omega
    · rw [vfu_case_mix u v z (Or.inr ⟨by omega, by omega⟩)]
      simp only [uvpFromVectors, vset, place3_A, place3_B, place3_C, place3_D, place3_E,
        place3_F, place3_P, place3_M, Char.reduceEq, reduceIte]
      split_ifs <;> simp only [Prod.mk.injEq] <;> omega
    · rcases le_or_lt (-u) v with hcmp | hcmp
      · rw [vfu_case_de u v z hu hv hcmp]
        simp only [uvpFromVectors, vset, place3_A, place3_B, place3_C, place3_D, place3_E,
          place3_F, place3_P, place3_M, Char.reduceEq, reduceIte]
        split_ifs <;> simp only [Prod.mk.injEq] <;> omega
      · rw [vfu_case_ef u v z hu hv hcmp]
        simp only [uvpFromVectors, vset, place3_A, place3_B, place3_C, place3_D, place3_E,
          place3_F, place3_P, place3_M, Char.reduceEq, reduceIte]
        split_ifs <;> simp only [Prod.mk.injEq] <;> omega
  · rw [vfu_case_mix u v z (by omega)]
    simp only [uvpFromVectors, vset, place3_A, place3_B, place3_C, place3_D, place3_E,
      place3_F, place3_P, place3_M, Char.reduceEq, reduceIte]
    split_ifs <;> simp only [Prod.mk.injEq] <;> omega
  · rcases lt_trichotomy v 0 with hv | hv | hv
    · rcases le_or_lt u (-v) with hcmp | hcmp
      · rw [vfu_case_ab u v z hu hv hcmp]
        simp only [uvpFromVectors, vset, place3_A, place3_B, place3_C, place3_D, place3_E,
          place3_F, place3_P, place3_M, Char.reduceEq, reduceIte]
        split_ifs <;> simp only [Prod.mk.injEq] <;> omega
      · rw [vfu_case_bc u v z hu hv hcmp]
        simp only [uvpFromVectors, vset, place3_A, place3_B, place3_C, place3_D, place3_E,
          place3_F, place3_P, place3_M, Char.reduceEq, reduceIte]
        split_ifs <;> simp only [Prod.mk.injEq] <;> omega
    · rw [vfu_case_mix u v z (Or.inl ⟨by omega, by omega⟩)]
      simp only [uvpFromVectors, vset, place3_A, place3_B, place3_C, place3_D, place3_E,
        place3_F, place3_P, place3_M, Char.reduceEq, reduceIte]
      split_ifs <;> simp only [Prod.mk.injEq] <;> omega
    · rw [vfu_case_mix u v z (Or.inl ⟨by omega, by omega⟩)]
      simp only [uvpFromVectors, vset, place3_A, place3_B, place3_C, place3_D, place3_E,
        place3_F, place3_P, place3_M, Char.reduceEq, reduceIte]
      split_ifs <;> simp only [Prod.mk.injEq] <;> omega

theorem mmvDict_vert (d : VDict) (z : Int)
    (hP : d '+' = if 0 < z then z else 0)
    (hM : d '-' = if z < 0 then -z else 0) :
    (mmvDict d).2.2 = vertOf z := by
  have hn1 : (0 < -z) ↔ z < 0 := by omega
  have hn2 : (-z < 0) ↔ 0 < z := by omega
  by_cases hz1 : 0 < z <;> by_cases hz2 : z < 0 <;>
    first
    | (exfalso; omega)
    | simp only [mmvDict, vertOf, List.foldl, hP, hM, hz1, hz2, hn1, hn2,
        reduceIte, if_true, if_false, Int.reduceLT, lt_self_iff_false]

theorem mmvDict_mm (d : VDict) (c1 c2 : Char) (a b : Int)
    (hadj : c1 = c2 ∨ adjacentH c1 c2 = true)
    (hc1 : c1 ∈ CARDINAL_H) (hc2 : c2 ∈ CARDINAL_H) (ha : 0 ≤ a) (hb : 0 ≤ b)
    (hH : ∀ c ∈ CARDINAL_H, d c = if c = c1 then a else if c = c2 then b else 0) :
    ∃ M cM m cm, (mmvDict d).1 = (M, cM) ∧ (mmvDict d).2.1 = (m, cm) ∧
      cM ∈ CARDINAL_H ∧ cm ∈ CARDINAL_H ∧ 0 ≤ m ∧ m ≤ M ∧ M + m ≤ a + b ∧
      (0 < m → cM ≠ cm) ∧
      ∀ c ∈ CARDINAL_H, d c =
        if 0 < M ∧ c = cM then M else if 0 < m ∧ c = cm then m else 0 := by
  have h1 := hH 'A' (by decide)
  have h2 := hH 'B' (by decide)
  have h3 := hH 'C' (by decide)
  have h4 := hH 'D' (by decide)
  have h5 := hH 'E' (by decide)
  have h6 := hH 'F' (by decide)
  have hna : ¬ a < 0 := by omega
  have hnb : ¬ b < 0 := by omega
  fin_cases hc1 <;> fin_cases hc2 <;>
    first
    | (exact absurd hadj (by decide))
    | (by_cases h1a : 0 < a <;> by_cases h1b : 0 < b <;>
       by_cases hor1 : a < b <;> by_cases hor2 : b < a <;>
        first
        | (exfalso; omega)
        | (simp only [mmvDict, CARDINAL_H, List.foldl, mmStep, h1, h2, h3, h4, h5, h6,
             h1a, h1b, hor1, hor2, hna, hnb, Char.reduceEq, reduceIte, if_true, if_false,
             lt_self_iff_false, Int.reduceLT, true_and, false_and, and_true, and_false]
           refine ⟨_, _, _, _, rfl, rfl, ?_, ?_, ?_, ?_, ?_, ?_, ?_⟩ <;>
             first
             | decide
             | omega
             | (intro hmp; first | exact absurd hmp (by omega) | decide)
             | (intro c hc
                fin_cases hc <;>
                  simp only [h1, h2, h3, h4, h5, h6, h1a, h1b, hor1, hor2, Char.reduceEq,
                    reduceIte, if_true, if_false, true_and, false_and, and_true, and_false,
                    lt_self_iff_false] <;>
                  first | rfl | omega)))

theorem mmv_complete (u v z : Int) : ∃ M cM m cm,
    mmv (u, v, z) = ((M, cM), (m, cm), vertOf z) ∧
    cM ∈ CARDINAL_H ∧ cm ∈ CARDINAL_H ∧ 0 ≤ m ∧ m ≤ M ∧
    M + m ≤ 2 * ((u.natAbs : Int) + v.natAbs) ∧
    (0 < m → cM ≠ cm) ∧
    (∀ c ∈ CARDINAL_H, vectorsFromUvp (u, v, z) c =
      if 0 < M ∧ c = cM then M else if 0 < m ∧ c = cm then m else 0) ∧
    vectorsFromUvp (u, v, z) '+' = (if 0 < z then z else 0) ∧
    vectorsFromUvp (u, v, z) '-' = (if z < 0 then -z else 0) := by
  obtain ⟨c1, c2, a, b, hadj, hc1, hc2, ha, hb, hab1, hab2, hH, hP, hM⟩ := vfu_shape u v z
  obtain ⟨M, cM, m, cm, e1, e2, p1, p2, p3, p4, p5, p6, p7⟩ :=
    mmvDict_mm (vectorsFromUvp (u, v, z)) c1 c2 a b hadj hc1 hc2 ha hb hH
  refine ⟨M, cM, m, cm, ?_, p1, p2, p3, p4, by omega, p6, p7, hP, hM⟩
  have e3 := mmvDict_vert (vectorsFromUvp (u, v, z)) z hP hM
  show mmvDict (vectorsFromUvp (u, v, z)) = ((M, cM), (m, cm), vertOf z)
  rw [show mmvDict (vectorsFromUvp (u, v, z)) =
    ((mmvDict (vectorsFromUvp (u, v, z))).1, (mmvDict (vectorsFromUvp (u, v, z))).2.1,
     (mmvDict (vectorsFromUvp (u, v, z))).2.2) from rfl, e1, e2, e3]

theorem mem_card_H {c : Char} (h : c ∈ CARDINAL_H) : c ∈ CARDINALS :=
  List.mem_append.mpr (Or.inl h)

theorem mem_card_V {c : Char} (h : c ∈ CARDINAL_V) : c ∈ CARDINALS :=
  List.mem_append.mpr (Or.inr h)

theorem hchar_ne_vert (c : Char) (h : c ∈ CARDINAL_H) : c ≠ '+' ∧ c ≠ '-' := by
  fin_cases h <;> exact ⟨by decide, by decide⟩

theorem bound_chain : 4 * (10 : Nat) ^ 27 < 10 ^ 400 := by
  have h1 : 0 < (10 : Nat) ^ 27 := pow_pos (by omega) 27
  have h2 : (10 : Nat) ^ 27 * 10 = 10 ^ 28 := by rw [← pow_succ]
  have h3 : (10 : Nat) ^ 28 ≤ 10 ^ 400 := Nat.pow_le_pow_right (by omega) (by omega)
  omega

theorem pow400_cast : ((10 ^ 400 : Nat) : Int) = 10 ^ 400 := by
  push_cast
  ring

theorem uvp_zeroH (d : VDict) (h : ∀ c ∈ CARDINAL_H, d c = 0) :
    uvpFromVectors d = (0, 0, d '+' - d '-') := by
  simp only [uvpFromVectors, h 'A' (by decide), h 'B' (by decide), h 'C' (by decide),
    h 'D' (by decide), h 'E' (by decide), h 'F' (by decide), ne_eq, Int.reduceEq,
    not_true, if_false, if_true, ite_false, ite_true, not_false_iff, Int.reduceAdd,
    Int.reduceSub, add_zero, zero_add, sub_zero, zero_sub]

theorem recon2 (cM cm cv : Char) (M m zv : Int) (d : VDict)
    (hcM : cM ∈ CARDINAL_H) (hcm : cm ∈ CARDINAL_H) (hcv : cv ∈ CARDINAL_V)
    (hMpos : 0 < M) (hm0 : 0 ≤ m) (hz0 : 0 ≤ zv)
    (hneq : 0 < m → cM ≠ cm)
    (hpt : ∀ c ∈ CARDINAL_H, d c =
      if 0 < M ∧ c = cM then M else if 0 < m ∧ c = cm then m else 0)
    (hp : d '+' = if cv = '+' then zv else 0)
    (hq : d '-' = if cv = '-' then zv else 0) :
    ∀ c ∈ CARDINALS,
      List.foldl (fun dd p => vset dd p.2 p.1) vzero
        ([(M, cM)] ++ (if 0 < m then [(m, cm)] else []) ++
          (if 0 < zv then [(zv, cv)] else [])) c = d c := by
  fin_cases hcv <;> fin_cases hcM <;> fin_cases hcm <;>
    (intro c hc
     by_cases hm1 : 0 < m <;> by_cases hz1 : 0 < zv <;>
       first
       | exact absurd rfl (hneq hm1)
       | (simp only [hm1, hz1, if_true, if_false, List.cons_append, List.nil_append,
            List.foldl, vset, vzero]
          fin_cases hc <;>
            simp only [hpt 'A' (by decide), hpt 'B' (by decide), hpt 'C' (by decide),
              hpt 'D' (by decide), hpt 'E' (by decide), hpt 'F' (by decide), hp, hq,
              hMpos, hm1, Char.reduceEq, reduceIte, if_true, if_false, true_and,
              false_and, and_true, and_false] <;>
            first | rfl | omega))

theorem parseVec_format_list (ts : List (Int × Char))
    (hts : ∀ p ∈ ts, 0 ≤ p.1 ∧ p.1 < 10 ^ 400 ∧ p.2 ∈ CARDINALS)
    (hnd : (ts.map Prod.snd).Nodup) :
    parseVec ⟨joinSep [' '] (ts.map (fun p => natRepr p.1.toNat ++ [p.2]))⟩ =
      .ok (uvpFromVectors (ts.foldl (fun dd p => vset dd p.2 p.1) vzero)) := by
  have hsplit : pySplit (joinSep [' '] (ts.map (fun p => natRepr p.1.toNat ++ [p.2]))) =
      ts.map (fun p => natRepr p.1.toNat ++ [p.2]) := by
    apply pySplit_joinSep
    intro t ht
    obtain ⟨p, hp, rfl⟩ := List.mem_map.mp ht
    obtain ⟨h0, hlt, hcard⟩ := hts p hp
    have hnat : p.1.toNat < 10 ^ 400 := by
      have := pow400_cast
      omega
    refine ⟨by simp, ?_⟩
    intro c hc
    rcases List.mem_append.mp hc with h | h
    · exact digit_not_ws _ ((natRepr_facts p.1.toNat hnat).2.1 _ h)
    · rw [List.mem_singleton.mp h]
      exact cardinal_not_ws _ hcard
  show (parseTokens (pySplit (joinSep [' '] (ts.map (fun p => natRepr p.1.toNat ++ [p.2]))))
      vzero []).map uvpFromVectors = _
  rw [hsplit, parseTokens_ok ts vzero [] hts (by simpa using hnd)]
  rfl

theorem roundtrip_core (u v z : Int)
    (hnz : ¬(u = 0 ∧ v = 0 ∧ z = 0))
    (hbu : u.natAbs ≤ 10 ^ 27) (hbv : v.natAbs ≤ 10 ^ 27) (hbz : z.natAbs ≤ 10 ^ 27) :
    parseVec (formatVec (u, v, z)) = .ok (u, v, z) := by
  obtain ⟨M, cM, m, cm, hmmv, hcM, hcm, hm0, hmM, hbd, hneq, hpt, hPe, hMe⟩ := mmv_complete u v z
  have hg := bound_chain
  have hcast := pow400_cast
  rcases eq_or_lt_of_le (hm0.trans hmM) with hM0 | hM1
  · -- no nonzero horizontal component: the vector is purely vertical
    have hm00 : m = 0 := by omega
    have hzH : ∀ c ∈ CARDINAL_H, vectorsFromUvp (u, v, z) c = 0 := by
      intro c hc
      rw [hpt c hc]
      split_ifs <;> omega
    have huv : (u, v, z) = (0, 0, vectorsFromUvp (u, v, z) '+' - vectorsFromUvp (u, v, z) '-') :=
      (uvpRoundTrip u v z).symm.trans (uvp_zeroH _ hzH)
    rw [Prod.ext_iff, Prod.ext_iff] at huv
    obtain ⟨hu, hv2, -⟩ := huv
    simp only at hu hv2
    subst hu
    subst hv2
    have hzne : z ≠ 0 := fun h => hnz ⟨rfl, rfl, h⟩
    rw [← hM0] at hmmv
    rw [hm00] at hmmv
    rcases lt_trichotomy z 0 with hzn | hz0' | hzp
    · have hznp : ¬ 0 < z := by omega
      have hnzz : ¬ (-z = 0) := by omega
      have hfmt : formatVec (0, 0, z) =
          ⟨joinSep [' '] (([((-z : Int), '-')] : List (Int × Char)).map
            (fun p => natRepr p.1.toNat ++ [p.2]))⟩ := by
        simp only [formatVec, hmmv, vertOf, hzn, hznp, hnzz, if_true, if_false, reduceIte,
          Int.reduceEq, List.map_cons, List.map_nil, joinSep,
          intChars_nonneg (-z) (by omega)]
      rw [hfmt, parseVec_format_list [((-z : Int), '-')]
        (by intro p hp2
            simp only [List.mem_cons, List.not_mem_nil, or_false] at hp2
            rw [hp2]
            exact ⟨by omega, by omega, mem_card_V (show ('-' : Char) ∈ CARDINAL_V from by decide)⟩)
        (by simp)]
      rw [show (uvpFromVectors (List.foldl (fun dd p => vset dd p.2 p.1) vzero
          [((-z : Int), '-')])) = ((0 : Int), (0 : Int), z) from by
        simp only [List.foldl, uvpFromVectors, vset, vzero, Char.reduceEq, reduceIte,
          ne_eq, Int.reduceEq, not_true, not_false_iff, if_true, if_false, ite_true,
          ite_false, Prod.mk.injEq]
        omega]
    · exact absurd hz0' hzne
    · have hznn : ¬ z < 0 := by omega
      have hzz : ¬ (z = 0) := by omega
      have hfmt : formatVec (0, 0, z) =
          ⟨joinSep [' '] (([((z : Int), '+')] : List (Int × Char)).map
            (fun p => natRepr p.1.toNat ++ [p.2]))⟩ := by
        simp only [formatVec, hmmv, vertOf, hzp, hznn, hzz, if_true, if_false, reduceIte,
          Int.reduceEq, List.map_cons, List.map_nil, joinSep,
          intChars_nonneg z (by omega)]
      rw [hfmt, parseVec_format_list [((z : Int), '+')]
        (by intro p hp2
            simp only [List.mem_cons, List.not_mem_nil, or_false] at hp2
            rw [hp2]
            exact ⟨by omega, by omega, mem_card_V (show ('+' : Char) ∈ CARDINAL_V from by decide)⟩)
        (by simp)]
      rw [show (uvpFromVectors (List.foldl (fun dd p => vset dd p.2 p.1) vzero
          [((z : Int), '+')])) = ((0 : Int), (0 : Int), z) from by
        simp only [List.foldl, uvpFromVectors, vset, vzero, Char.reduceEq, reduceIte,
          ne_eq, Int.reduceEq, not_true, not_false_iff, if_true, if_false, ite_true,
          ite_false, Prod.mk.injEq]
        omega]
  · -- nonzero major component
    have hMne : ¬ (M = 0) := by omega
    by_cases hm1 : 0 < m
    · rcases lt_trichotomy z 0 with hzn | hz0' | hzp
      · -- major, minor and a negative vertical
        have hznp : ¬ 0 < z := by omega
        have hnegz : (0 : Int) < -z := by omega
        have hfmt : formatVec (u, v, z) =
            ⟨joinSep [' '] (([(M, cM), (m, cm), ((-z : Int), '-')] : List (Int × Char)).map
              (fun p => natRepr p.1.toNat ++ [p.2]))⟩ := by
          simp only [formatVec, hmmv, vertOf, hzn, hznp, hMne, hm1, hnegz, if_true,
            if_false, reduceIte, List.map_cons, List.map_nil, List.cons_append,
            List.nil_append, joinSep, intChars_nonneg M (by omega),
            intChars_nonneg m (by omega), intChars_nonneg (-z) (by omega)]
        rw [hfmt, parseVec_format_list [(M, cM), (m, cm), ((-z : Int), '-')]
          (by intro p hp2
              simp only [List.mem_cons, List.not_mem_nil, or_false] at hp2
              rcases hp2 with rfl | rfl | rfl
              · exact ⟨by omega, by omega, mem_card_H hcM⟩
              · exact ⟨by omega, by omega, mem_card_H hcm⟩
              · exact ⟨by omega, by omega, mem_card_V (show ('-' : Char) ∈ CARDINAL_V from by decide)⟩)
          (by simp only [List.map_cons, List.map_nil, List.nodup_cons, List.mem_cons,
                List.mem_singleton, List.not_mem_nil, not_false_iff, and_true, not_or,
                List.nodup_nil]
              exact ⟨⟨hneq hm1, (hchar_ne_vert cM hcM).2⟩, (hchar_ne_vert cm hcm).2⟩)]
        have hrec := recon2 cM cm '-' M m (-z) (vectorsFromUvp (u, v, z)) hcM hcm
          (by decide) hM1 hm0 (by omega) hneq hpt
          (by simp only [hPe, hznp, if_false, reduceIte, Char.reduceEq])
          (by simp only [hMe, hzn, if_true, reduceIte, Char.reduceEq])
        simp only [hm1, hnegz, if_true, List.cons_append, List.nil_append] at hrec
        rw [show (uvpFromVectors (List.foldl (fun dd p => vset dd p.2 p.1) vzero
          [(M, cM), (m, cm), ((-z : Int), '-')])) = (u, v, z) from
          (uvpFromVectors_ext _ _ hrec).trans (uvpRoundTrip u v z)]
      · -- major and minor, no vertical
        have hznp : ¬ 0 < z := by omega
        have hznn : ¬ z < 0 := by omega
        have hfmt : formatVec (u, v, z) =
            ⟨joinSep [' '] (([(M, cM), (m, cm)] : List (Int × Char)).map
              (fun p => natRepr p.1.toNat ++ [p.2]))⟩ := by
          simp only [formatVec, hmmv, vertOf, hznp, hznn, hMne, hm1, if_true, if_false,
            reduceIte, Int.reduceLT, List.map_cons, List.map_nil, List.cons_append,
            List.nil_append, joinSep, intChars_nonneg M (by omega),
            intChars_nonneg m (by omega)]
        rw [hfmt, parseVec_format_list [(M, cM), (m, cm)]
          (by intro p hp2
              simp only [List.mem_cons, List.not_mem_nil, or_false] at hp2
              rcases hp2 with rfl | rfl
              · exact ⟨by omega, by omega, mem_card_H hcM⟩
              · exact ⟨by omega, by omega, mem_card_H hcm⟩)
          (by simp only [List.map_cons, List.map_nil, List.nodup_cons, List.mem_cons,
                List.mem_singleton, List.not_mem_nil, not_false_iff, and_true, not_or,
                List.nodup_nil]
              exact hneq hm1)]
        have hrec := recon2 cM cm '+' M m 0 (vectorsFromUvp (u, v, z)) hcM hcm
          (by decide) hM1 hm0 (by omega) hneq hpt
          (by simp only [hPe, hznp, if_false, reduceIte, Char.reduceEq])
          (by simp only [hMe, hznn, if_false, reduceIte, Char.reduceEq])
        simp only [hm1, if_true, if_false, Int.reduceLT, lt_self_iff_false,
          List.cons_append, List.nil_append, List.append_nil] at hrec
        rw [show (uvpFromVectors (List.foldl (fun dd p => vset dd p.2 p.1) vzero
          [(M, cM), (m, cm)])) = (u, v, z) from
          (uvpFromVectors_ext _ _ hrec).trans (uvpRoundTrip u v z)]
      · -- major, minor and a positive vertical
        have hznn : ¬ z < 0 := by omega
        have hfmt : formatVec (u, v, z) =
            ⟨joinSep [' '] (([(M, cM), (m, cm), (z, '+')] : List (Int × Char)).map
              (fun p => natRepr p.1.toNat ++ [p.2]))⟩ := by
          simp only [formatVec, hmmv, vertOf, hzp, hMne, hm1, if_true, if_false,
            reduceIte, List.map_cons, List.map_nil, List.cons_append, List.nil_append,
            joinSep, intChars_nonneg M (by omega), intChars_nonneg m (by omega),
            intChars_nonneg z (by omega)]
        rw [hfmt, parseVec_format_list [(M, cM), (m, cm), (z, '+')]
          (by intro p hp2
              simp only [List.mem_cons, List.not_mem_nil, or_false] at hp2
              rcases hp2 with rfl | rfl | rfl
              · exact ⟨by omega, by omega, mem_card_H hcM⟩
              · exact ⟨by omega, by omega, mem_card_H hcm⟩
              · exact ⟨by omega, by omega, mem_card_V (show ('+' : Char) ∈ CARDINAL_V from by decide)⟩)
          (by simp only [List.map_cons, List.map_nil, List.nodup_cons, List.mem_cons,
                List.mem_singleton, List.not_mem_nil, not_false_iff, and_true, not_or,
                List.nodup_nil]
              exact ⟨⟨hneq hm1, (hchar_ne_vert cM hcM).1⟩, (hchar_ne_vert cm hcm).1⟩)]
        have hrec := recon2 cM cm '+' M m z (vectorsFromUvp (u, v, z)) hcM hcm
          (by decide) hM1 hm0 (by omega) hneq hpt
          (by simp only [hPe, hzp, if_true, reduceIte, Char.reduceEq])
          (by simp only [hMe, hznn, if_false, reduceIte, Char.reduceEq])
        simp only [hm1, hzp, if_true, List.cons_append, List.nil_append] at hrec
        rw [show (uvpFromVectors (List.foldl (fun dd p => vset dd p.2 p.1) vzero
          [(M, cM), (m, cm), (z, '+')])) = (u, v, z) from
          (uvpFromVectors_ext _ _ hrec).trans (uvpRoundTrip u v z)]
    · -- no minor component
      rcases lt_trichotomy z 0 with hzn | hz0' | hzp
      · have hznp : ¬ 0 < z := by omega
        have hnegz : (0 : Int) < -z := by omega
        have hfmt : formatVec (u, v, z) =
            ⟨joinSep [' '] (([(M, cM), ((-z : Int), '-')] : List (Int × Char)).map
              (fun p => natRepr p.1.toNat ++ [p.2]))⟩ := by
          simp only [formatVec, hmmv, vertOf, hzn, hznp, hMne, hm1, hnegz, if_true,
            if_false, reduceIte, List.map_cons, List.map_nil, List.cons_append,
            List.nil_append, joinSep, intChars_nonneg M (by omega),
            intChars_nonneg (-z) (by omega)]
        rw [hfmt, parseVec_format_list [(M, cM), ((-z : Int), '-')]
          (by intro p hp2
              simp only [List.mem_cons, List.not_mem_nil, or_false] at hp2
              rcases hp2 with rfl | rfl
              · exact ⟨by omega, by omega, mem_card_H hcM⟩
              · exact ⟨by omega, by omega, mem_card_V (show ('-' : Char) ∈ CARDINAL_V from by decide)⟩)
          (by simp only [List.map_cons, List.map_nil, List.nodup_cons, List.mem_cons,
                List.mem_singleton, List.not_mem_nil, not_false_iff, and_true, not_or,
                List.nodup_nil]
              exact (hchar_ne_vert cM hcM).2)]
        have hrec := recon2 cM cm '-' M m (-z) (vectorsFromUvp (u, v, z)) hcM hcm
          (by decide) hM1 hm0 (by omega) hneq hpt
          (by simp only [hPe, hznp, if_false, reduceIte, Char.reduceEq])
          (by simp only [hMe, hzn, if_true, reduceIte, Char.reduceEq])
        simp only [hm1, hnegz, if_true, if_false, List.cons_append, List.nil_append] at hrec
        rw [show (uvpFromVectors (List.foldl (fun dd p => vset dd p.2 p.1) vzero
          [(M, cM), ((-z : Int), '-')])) = (u, v, z) from
          (uvpFromVectors_ext _ _ hrec).trans (uvpRoundTrip u v z)]
      · have hznp : ¬ 0 < z := by omega
        have hznn : ¬ z < 0 := by omega
        have hfmt : formatVec (u, v, z) =
            ⟨joinSep [' '] (([(M, cM)] : List (Int × Char)).map
              (fun p => natRepr p.1.toNat ++ [p.2]))⟩ := by
          simp only [formatVec, hmmv, vertOf, hznp, hznn, hMne, hm1, if_true, if_false,
            reduceIte, Int.reduceLT, List.map_cons, List.map_nil, List.cons_append,
            List.nil_append, joinSep, intChars_nonneg M (by omega)]
        rw [hfmt, parseVec_format_list [(M, cM)]
          (by intro p hp2
              simp only [List.mem_cons, List.not_mem_nil, or_false] at hp2
              rw [hp2]
              exact ⟨by omega, by omega, mem_card_H hcM⟩)
          (by simp)]
        have hrec := recon2 cM cm '+' M m 0 (vectorsFromUvp (u, v, z)) hcM hcm
          (by decide) hM1 hm0 (by omega) hneq hpt
          (by simp only [hPe, hznp, if_false, reduceIte, Char.reduceEq])
          (by simp only [hMe, hznn, if_false, reduceIte, Char.reduceEq])
        simp only [hm1, if_true, if_false, Int.reduceLT, lt_self_iff_false,
          List.cons_append, List.nil_append, List.append_nil] at hrec
        rw [show (uvpFromVectors (List.foldl (fun dd p => vset dd p.2 p.1) vzero
          [(M, cM)])) = (u, v, z) from
          (uvpFromVectors_ext _ _ hrec).trans (uvpRoundTrip u v z)]
      · have hznn : ¬ z < 0 := by omega
        have hfmt : formatVec (u, v, z) =
            ⟨joinSep [' '] (([(M, cM), (z, '+')] : List (Int × Char)).map
              (fun p => natRepr p.1.toNat ++ [p.2]))⟩ := by
          simp only [formatVec, hmmv, vertOf, hzp, hMne, hm1, if_true, if_false,
            reduceIte, List.map_cons, List.map_nil, List.cons_append, List.nil_append,
            joinSep, intChars_nonneg M (by omega), intChars_nonneg z (by omega)]
        rw [hfmt, parseVec_format_list [(M, cM), (z, '+')]
          (by intro p hp2
              simp only [List.mem_cons, List.not_mem_nil, or_false] at hp2
              rcases hp2 with rfl | rfl
              · exact ⟨by omega, by omega, mem_card_H hcM⟩
              · exact ⟨by omega, by omega, mem_card_V (show ('+' : Char) ∈ CARDINAL_V from by decide)⟩)
          (by simp only [List.map_cons, List.map_nil, List.nodup_cons, List.mem_cons,
                List.mem_singleton, List.not_mem_nil, not_false_iff, and_true, not_or,
                List.nodup_nil]
              exact (hchar_ne_vert cM hcM).1)]
        have hrec := recon2 cM cm '+' M m z (vectorsFromUvp (u, v, z)) hcM hcm
          (by decide) hM1 hm0 (by omega) hneq hpt
          (by simp only [hPe, hzp, if_true, reduceIte, Char.reduceEq])
          (by simp only [hMe, hznn, if_false, reduceIte, Char.reduceEq])
        simp only [hm1, hzp, if_true, if_false, List.cons_append, List.nil_append] at hrec
        rw [show (uvpFromVectors (List.foldl (fun dd p => vset dd p.2 p.1) vzero
          [(M, cM), (z, '+')])) = (u, v, z) from
          (uvpFromVectors_ext _ _ hrec).trans (uvpRoundTrip u v z)]

/-- C2 (amended): the claim as stated fails at the zero vector (see the
counterexample theorem): `format` renders it as `"STILL"`, which does not
re-parse.  Amended to nonzero vectors whose components fit in the default
`decimal` context (at most 28 significant digits, here bounded by ten to the
27th), re-parsing the formatted vector is a fixed point of parsing:
`parse(format(parse(s)))` equals `parse(s)`. -/
theorem claim2_roundtrip_amended (s : String) (u v z : Int)
    (hp : parseVec s = .ok (u, v, z))
    (hnz : ¬(u = 0 ∧ v = 0 ∧ z = 0))
    (hbu : u.natAbs ≤ 10 ^ 27) (hbv : v.natAbs ≤ 10 ^ 27) (hbz : z.natAbs ≤ 10 ^ 27) :
    (parseVec s).bind (fun t => parseVec (formatVec t)) = parseVec s := by
  rw [hp]
  show parseVec (formatVec (u, v, z)) = .ok (u, v, z)
  exact roundtrip_core u v z hnz hbu hbv hbz

/-- C2 witness: the round trip through `format` at the parsed vector
`"7C 3+"`. -/
theorem claim2_witness :
    parseVec "7C 3+" = .ok (7, 0, 3) ∧
    (parseVec "7C 3+").bind (fun t => parseVec (formatVec t)) = parseVec "7C 3+" :=
  ⟨rfl, claim2_roundtrip_amended "7C 3+" 7 0 3 rfl (by decide) (by decide) (by decide)
    (by decide)⟩

theorem pySplit_all_ws : ∀ l : List Char, (∀ c ∈ l, isPyWs c = true) →
    pySplitAux l [] = [] := by
  intro l
  induction l with
  | nil => intro h; rfl
  | cons c rest ih =>
    intro h
    show (if isPyWs c then (if ([] : List Char) = [] then pySplitAux rest []
      else ([] : List Char).reverse :: pySplitAux rest []) else pySplitAux rest [c]) = []
    rw [h c (by simp), if_pos rfl, if_pos rfl]
    exact ih (fun c2 hc2 => h c2 (by simp [hc2]))

theorem parseTokens_error_iff : ∀ (ts : List (List Char)) (d : VDict) (seen : List Char),
    seen.Nodup →
    ((∃ e, parseTokens ts d seen = .error e) ↔
      ((∃ t ∈ ts, tokenBad t) ∨
        ¬ (seen ++ ts.map (fun t => upperChar (t.getLastD ' '))).Nodup)) := by
  intro ts
  induction ts with
  | nil =>
    intro d seen hnd
    simp only [parseTokens, List.map_nil, List.append_nil, List.not_mem_nil]
    constructor
    · rintro ⟨e, he⟩
      cases he
    · rintro (⟨t, ht, hb⟩ | h2)
      · cases ht
      · exact absurd hnd h2
  | cons t rest ih =>
    intro d seen hnd
    cases hpi : pyInt t.dropLast with
    | none =>
      simp only [parseTokens, hpi]
      exact ⟨fun _ => Or.inl ⟨t, by simp, Or.inl hpi⟩, fun _ => ⟨.intError, rfl⟩⟩
    | some num =>
      by_cases hneg : num < 0
      · simp only [parseTokens, hpi, if_pos hneg]
        exact ⟨fun _ => Or.inl ⟨t, by simp, Or.inr (Or.inl ⟨num, hpi, hneg⟩)⟩,
          fun _ => ⟨.negative, rfl⟩⟩
      · by_cases hdup : upperChar (t.getLastD ' ') ∈ seen
        · simp only [parseTokens, hpi, if_neg hneg, if_pos hdup]
          refine ⟨fun _ => Or.inr ?_, fun _ => ⟨.duplicate, rfl⟩⟩
          intro hN
          rcases List.nodup_append.mp hN with ⟨-, -, hdisj⟩
          exact (hdisj hdup) (by simp)
        · by_cases hcard : upperChar (t.getLastD ' ') ∈ CARDINALS
          · have hnb : ¬ tokenBad t := by
              rintro (h | ⟨n, hn, hlt⟩ | h)
              · rw [hpi] at h; cases h
              · rw [hpi] at hn
                cases hn
                exact hneg hlt
              · exact h hcard
            have hstep : parseTokens (t :: rest) d seen =
                parseTokens rest (vset d (upperChar (t.getLastD ' ')) num)
                  (seen ++ [upperChar (t.getLastD ' ')]) := by
              simp only [parseTokens, hpi, if_neg hneg, if_neg hdup,
                if_neg (not_not_intro hcard)]
            have hnd2 : (seen ++ [upperChar (t.getLastD ' ')]).Nodup :=
              List.nodup_append.mpr ⟨hnd, List.nodup_singleton _,
                fun a ha hb => hdup (by rwa [List.mem_singleton.mp hb] at ha)⟩
            rw [hstep]
            refine (ih _ _ hnd2).trans ?_
            constructor
            · rintro (⟨t2, ht2, hb⟩ | h)
              · exact Or.inl ⟨t2, List.mem_cons_of_mem _ ht2, hb⟩
              · refine Or.inr ?_
                intro hN
                exact h (by simpa [List.append_assoc] using hN)
            · rintro (⟨t2, ht2, hb⟩ | h)
              · rcases List.mem_cons.mp ht2 with rfl | ht3
                · exact absurd hb hnb
                · exact Or.inl ⟨t2, ht3, hb⟩
              · refine Or.inr ?_
                intro hN
                exact h (by simpa [List.append_assoc] using hN)
          · simp only [parseTokens, hpi, if_neg hneg, if_neg hdup, if_pos hcard]
            exact ⟨fun _ => Or.inl ⟨t, by simp, Or.inr (Or.inr hcard)⟩,
              fun _ => ⟨.invalidDir, rfl⟩⟩

/-- C3: parsing errors are characterized exactly: a token string raises the
malformed-vector error if and only if some token is bad (no numeric prefix,
negative magnitude, or unrecognized direction letter) or an uppercased
direction letter repeats; a non-string input raises the attribute error; and
every all-whitespace (or empty) string parses to the zero vector. -/
theorem claim3_parse_error_characterization :
    (∀ s : String, (∃ e, parseVec s = .error e) ↔
      ((∃ t ∈ pySplit s.data, tokenBad t) ∨
        ¬ ((pySplit s.data).map (fun t => upperChar (t.getLastD ' '))).Nodup)) ∧
    parseVecInput none = .error .notString ∧
    (∀ s : String, (∀ c ∈ s.data, isPyWs c = true) → parseVec s = .ok (0, 0, 0)) ∧
    parseVec "" = .ok (0, 0, 0) := by
  refine ⟨?_, rfl, ?_, rfl⟩
  · intro s
    have hmap : ∀ x : Except VecErr VDict,
        (∃ e, x.map uvpFromVectors = .error e) ↔ (∃ e, x = .error e) := by
      intro x
      cases x <;> simp [Except.map]
    refine (hmap _).trans ?_
    refine (parseTokens_error_iff (pySplit s.data) vzero [] List.nodup_nil).trans ?_
    rw [List.nil_append]
  · intro s hws
    show (parseTokens (pySplit s.data) vzero []).map uvpFromVectors = .ok (0, 0, 0)
    rw [show pySplit s.data = [] from pySplit_all_ws s.data hws]
    rfl

/-- C3 witness: the characterization applied to the blank string (which
parses to the zero vector) and, through the error equivalence, to a
duplicated-direction string. -/
theorem claim3_witness :
    parseVec "  " = .ok (0, 0, 0) ∧ (∃ e, parseVec "3A 4a" = .error e) :=
  ⟨claim3_parse_error_characterization.2.2.1 "  " (by decide),
   (claim3_parse_error_characterization.1 "3A 4a").mpr (Or.inr (by decide))⟩

/-- C4 (amended): the claim fails when the height deviation reaches the third
tier, where the direction is erased (see the counterexample theorem).
Amended with the tier-below-3 hypothesis and the 28-digit precision caveat
(components bounded by ten to the 27th, within which the program's `Decimal`
accumulation of the canonical triple is exact): for such a vector with
nonzero major component, `bearing` reports the rounded-half-up distance
`floor(sqrt(horizontal^2 + vertical^2) + 1/2)` (each square and sum context
rounded), then the window as the character-ordered edge pair `dir0/dir1`
exactly when `major <= 3 * minor` and as the major's single letter
otherwise, followed by one height mark per tier; the spec's three examples
hold as stated. -/
theorem claim4_bearing_amended :
    (∀ (u : Uvp) (M m zv : Int) (cM cm cv : Char),
      u.1.natAbs ≤ 10 ^ 27 → u.2.1.natAbs ≤ 10 ^ 27 → u.2.2.natAbs ≤ 10 ^ 27 →
      mmv u = ((M, cM), (m, cm), (zv, cv)) → M ≠ 0 →
      bearingHeight (bearingHDist false M m) zv ≠ 3 →
      bearing u false =
        ⟨intChars (Dec.floor (Dec.add (Dec.sqrt (Dec.add
            (Dec.sq (bearingHDist false M m)) (Dec.sq (Dec.ofInt zv)))) HALF)) ++ ' ' ::
          ((if M ≤ m * 3 then
              if cm < cM then [cm, '/', cM] else [cM, '/', cm]
            else [cM]) ++
            List.replicate (bearingHeight (bearingHDist false M m) zv) cv)⟩) ∧
    parseVec "23B" = .ok (23, -23, 0) ∧ bearing (23, -23, 0) false = "23 B" ∧
    parseVec "8D 5C" = .ok (5, 8, 0) ∧ bearing (5, 8, 0) false = "11 C/D" ∧
    parseVec "8+" = .ok (0, 0, 8) ∧ bearing (0, 0, 8) false = "8 +++" := by
  refine ⟨?_, rfl, rfl, rfl, rfl, rfl, rfl⟩
  intro u M m zv cM cm cv hbu hbv hbz hmm hM hh
  simp only [bearing, bearingDir, hmm, hM, hh, if_true, if_false, reduceIte,
    List.append_assoc, List.cons_append]

/-- C4 witness: the amended bearing shape at the vector parsed from
`"8D 5C"` (major 8 D, minor 5 C, no vertical). -/
theorem claim4_witness :
    bearing (5, 8, 0) false =
      ⟨intChars (Dec.floor (Dec.add (Dec.sqrt (Dec.add
          (Dec.sq (bearingHDist false 8 5)) (Dec.sq (Dec.ofInt 0)))) HALF)) ++ ' ' ::
        ((if (8 : Int) ≤ 5 * 3 then
            if 'C' < 'D' then ['C', '/', 'D'] else ['D', '/', 'C']
          else ['D']) ++
          List.replicate (bearingHeight (bearingHDist false 8 5) 0) '+')⟩ :=
  claim4_bearing_amended.1 (5, 8, 0) 8 5 0 'D' 'C' '+' (by decide) (by decide) (by decide)
    rfl (by decide) (by decide)

end AVT
